import Mathlib

/-!
# Verification of the penguin-workflow-builder execution core

A shallow embedding, in Lean 4, of the action-execution and test-feedback
core of the `penguin-workflow-builder` repository, together with proofs of
the behavioural claims made by its specification.

The embedding covers:

* the Test Agent report helper (`TestAgent.createReport`,
  `src/app/lib/agents/base/TestAgent.ts`);
* the severity classifiers of the two feedback parsers
  (`ErrorFeedbackParser.calculateSeverity`,
  `TestFeedbackParser.calculateSeverity`);
* the error monitor (`ErrorMonitor.monitorOutput`,
  `src/app/lib/runtime/error-monitor.ts`), including an executable model of
  the JavaScript regular-expression dialect it uses;
* the subagent manager's capability-scored dispatch
  (`SubagentManager`, `src/app/lib/agents/SubagentManager.ts`);
* the action runner state machine (`ActionRunner`,
  `src/app/lib/runtime/action-runner.ts`), with the browser runtime
  (filesystem, shell, test runner) abstracted as an environment oracle;
* the test-feedback wire format (`TestFeedbackParser.formatForMessage` /
  `parseTestResults`), including an executable model of the JavaScript
  `JSON.stringify(·, null, 2)` / `JSON.parse` pair they rely on.

JavaScript numbers are modelled as exact integers/rationals where the code
only ever compares or round-trips them; every divergence between the model
and IEEE semantics is flagged by a comment at the definition it concerns.
All definitions are executable, so each theorem with a hypothesis comes with
a closed witness evaluated by the kernel.
-/

namespace PWB

/-! ## Shared list/char utilities -/

/-- Decimal digit test, `c ∈ '0'..'9'`. -/
def isDig (c : Char) : Bool := '0' ≤ c && c ≤ '9'

/-- JSON/JS whitespace: space, tab, line feed, carriage return. -/
def isWsp (c : Char) : Bool := c == ' ' || c == '\t' || c == '\n' || c == '\r'

/-- Numeric value of a list of decimal digit characters (big-endian). -/
def digsToNat (ds : List Char) : Nat :=
  ds.foldl (fun acc c => acc * 10 + (c.toNat - '0'.toNat)) 0

/-- Does `pat` occur as a contiguous substring of `s`?  Models JavaScript
`String.prototype.includes` / a regex alternation of literals tested with
`.test`. -/
def containsSub (s pat : List Char) : Bool :=
  decide (List.IsInfix pat s)

/-- First index at which `pat` occurs in `s`, if any.  Models JavaScript
`String.prototype.indexOf` (which returns `-1` for "none"). -/
def idxOfSub (s pat : List Char) : Option Nat :=
  match s with
  | [] => if pat = [] then some 0 else none
  | _ :: tl =>
    if pat.isPrefixOf s then some 0
    else (idxOfSub tl pat).map (· + 1)

/-- Last index at which character `c` occurs in `s`, if any.  Models
JavaScript `String.prototype.lastIndexOf` for a one-character needle. -/
def lastIdxOf (s : List Char) (c : Char) : Option Nat :=
  match s with
  | [] => none
  | hd :: tl =>
    match lastIdxOf tl c with
    | some i => some (i + 1)
    | none => if hd = c then some 0 else none

/-- JavaScript `String.prototype.substring(a, b)`: both arguments are clamped
to `[0, length]` and swapped when out of order. -/
def jsSubstring (s : List Char) (a b : Nat) : List Char :=
  let n := s.length
  let a' := min a n
  let b' := min b n
  if a' ≤ b' then (s.take b').drop a' else (s.take a').drop b'

/-- Strip `pfx` from the front of `s` when it is present; otherwise return
`s` unchanged.  Models `String.prototype.replace(/^pfx/, '')` for a literal
anchored pattern. -/
def dropPfx (s pfx : List Char) : List Char :=
  if pfx.isPrefixOf s then s.drop pfx.length else s

/-- Split a character list at `'\n'`, JavaScript `split('\n')`: the result
always has one more entry than there are newlines, and no entry contains a
newline. -/
def splitLines (s : List Char) : List (List Char) :=
  match s with
  | [] => [[]]
  | c :: tl =>
    let rest := splitLines tl
    if c = '\n' then [] :: rest
    else
      match rest with
      | [] => [[c]]
      | l :: ls => (c :: l) :: ls

/-- JavaScript `String.prototype.trim`: strip leading and trailing
whitespace. -/
def jsTrim (s : List Char) : List Char :=
  ((s.dropWhile (fun c => isWsp c)).reverse.dropWhile (fun c => isWsp c)).reverse

/-! ## Test reports (`src/app/lib/agents/base/TestAgent.ts`)

`TestResult.status` is declared in `src/app/types/actions.ts` as
`'passed' | 'failed' | 'skipped'`, but the accessibility and performance
agents (and the feedback parser's display code) also construct and match a
`'warning'` status, and the specification's data model lists all four.  The
model therefore carries four statuses. -/

inductive TStatus
| passed
| failed
| skipped
| warning
deriving DecidableEq

mutual
/-- JSON values, used both for the open-ended `details`/`metadata` fields of
test results and for the model of `JSON.stringify`/`JSON.parse`.  Numbers
are modelled as exact integers: the serializer in this development emits
only integers, and JavaScript's float round-trip through JSON is exact, so
no claim here depends on IEEE rounding.  Arrays and objects use the mutual
types `JArr`/`JObj` (isomorphic to lists) so that equality stays
kernel-decidable. -/
inductive Json
| jnull
| jbool (b : Bool)
| jnum (n : Int)
| jstr (s : List Char)
| jarr (xs : JArr)
| jobj (fs : JObj)
deriving DecidableEq
inductive JArr
| anil
| acons (hd : Json) (tl : JArr)
deriving DecidableEq
inductive JObj
| onil
| ocons (key : List Char) (val : Json) (tl : JObj)
deriving DecidableEq
end

/-- `TestResult` (`src/app/types/actions.ts`), with the fourth runtime
status; optional fields are `Option`s and are omitted by the JSON encoder
exactly as `JSON.stringify` omits `undefined` properties. -/
structure TestResult where
  testName : List Char
  status : TStatus
  duration : Option Int
  error : Option (List Char)
  details : Option Json
  screenshot : Option (List Char)
deriving DecidableEq

/-- The `summary` record computed by `TestAgent.createReport`. -/
structure TSummary where
  total : Nat
  passed : Nat
  failed : Nat
  skipped : Nat
deriving DecidableEq

/-- `TestReport` (`src/app/lib/agents/base/TestAgent.ts`). -/
structure TestReport where
  agentName : List Char
  timestamp : Int
  duration : Int
  results : List TestResult
  summary : TSummary
  suggestions : Option (List (List Char))
  metadata : Option Json
deriving DecidableEq

namespace TestAgent

/-- `TestAgent.generateSuggestions` (base class): map each failed result's
error text to a fix hint by substring matching. -/
def generateSuggestions (results : List TestResult) : List (List Char) :=
  let failures := results.filter (fun r => r.status == TStatus.failed)
  failures.foldr
    (fun failure acc =>
      match failure.error with
      | none => acc
      | some err =>
        let s :=
          if containsSub err "TypeError".toList then
            "Fix type error in ".toList ++ failure.testName ++
              ": Check variable types and null/undefined values".toList
          else if containsSub err "ReferenceError".toList then
            "Fix reference error in ".toList ++ failure.testName ++
              ": Ensure all variables are properly defined".toList
          else if containsSub err "404".toList then
            "Fix missing resource in ".toList ++ failure.testName ++
              ": Check that all files and endpoints exist".toList
          else if containsSub err "timeout".toList then
            "Fix timeout in ".toList ++ failure.testName ++
              ": Optimize performance or increase timeout threshold".toList
          else
            "Fix error in ".toList ++ failure.testName ++ ": ".toList ++
              err.take 100
        s :: acc)
    []

/-- `TestAgent.createReport` (`src/app/lib/agents/base/TestAgent.ts`): build
a report whose summary counts the results by status.  `agentName` is the
agent's `this.name`; `now` stands for `Date.now()`. -/
def createReport (name : List Char) (results : List TestResult)
    (duration : Int) (now : Int) (metadata : Option Json) : TestReport :=
  let summary : TSummary :=
    { total := results.length
      passed := (results.filter (fun r => r.status == TStatus.passed)).length
      failed := (results.filter (fun r => r.status == TStatus.failed)).length
      skipped := (results.filter (fun r => r.status == TStatus.skipped)).length }
  { agentName := name
    timestamp := now
    duration := duration
    results := results
    summary := summary
    suggestions := some (generateSuggestions results)
    metadata := metadata }

end TestAgent

/-! ## Severity classification (`ErrorFeedbackParser`, `TestFeedbackParser`) -/

/-- The five compilation-error categories of
`src/app/lib/runtime/error-monitor.ts` (`'syntax' | 'import' | 'typescript'
| 'runtime' | 'build'`), under Lean-safe constructor names. -/
inductive CEType
| syn        -- 'syntax'
| imp        -- 'import'
| ts         -- 'typescript'
| run        -- 'runtime'
| build      -- 'build'
deriving DecidableEq

/-- `CompilationError` (`src/app/lib/runtime/error-monitor.ts`). -/
structure CompilationError where
  ctype : CEType
  file : List Char
  line : Option Nat
  column : Option Nat
  message : List Char
  rawError : List Char
  suggestion : Option (List Char)
  timestamp : Nat
deriving DecidableEq

/-- Severity of a compilation-error feedback payload. -/
inductive ESev
| warning
| error
| critical
deriving DecidableEq

/-- Severity of a test feedback payload. -/
inductive TSev
| success
| warning
| error
deriving DecidableEq

namespace ErrorFeedbackParser

/-- `ErrorFeedbackParser.calculateSeverity`: critical when any error is
syntax- or build-typed, else thresholded on the number of errors. -/
def calculateSeverity (errors : List CompilationError) : ESev :=
  let hasSyntaxError := errors.any (fun e => e.ctype == CEType.syn)
  let hasBuildError := errors.any (fun e => e.ctype == CEType.build)
  if hasBuildError || hasSyntaxError then ESev.critical
  else if errors.length > 3 then ESev.error
  else ESev.warning

end ErrorFeedbackParser

namespace TestFeedbackParser

/-- `TestFeedbackParser.calculateSeverity` (action-runner.ts): thresholds on
`summary.failed / summary.total`.  In JavaScript that quotient is a float
and, when `total = 0`, `NaN`; `NaN === 0` and `NaN < 0.3` are both false, so
the code returns `'error'`.  The model makes that case an explicit branch;
for `total ≠ 0` the rational quotient is exact and the float comparison
against `0.3` agrees with the rational one (`failed/total` would need to
round across `0.3` to differ, which cannot happen at these magnitudes). -/
def calculateSeverity (s : TSummary) : TSev :=
  if s.total = 0 then TSev.error
  else
    let failureRate : ℚ := (s.failed : ℚ) / (s.total : ℚ)
    if failureRate = 0 then TSev.success
    else if failureRate < 3 / 10 then TSev.warning
    else TSev.error

end TestFeedbackParser

/-! ## Subagent manager (`src/app/lib/agents/SubagentManager.ts`)

Registered subagents are external objects; the model keeps, for each one,
its name, its `canHandle` predicate and the outcome of `execute` (a result,
or a thrown exception message).  The manager's `Map` iterates in insertion
order, so the registry is a list in registration order. -/

/-- `SubagentTask.priority` (`src/app/lib/agents/base/Subagent.ts`). -/
inductive TPriority
| low
| medium
| high
| critical
deriving DecidableEq

/-- The fields of `SubagentTask` the manager reads. -/
structure SubagentTask where
  id : List Char
  description : List Char
  priority : TPriority
deriving DecidableEq

/-- `SubagentResult` (fields the manager constructs or returns). -/
structure SubagentResult where
  taskId : List Char
  agentName : List Char
  success : Bool
  errors : Option (List (List Char))
  timestamp : Int
deriving DecidableEq

/-- `TaskDelegation.status`. -/
inductive DStatus
| pending
| running
| completed
| failed
deriving DecidableEq

/-- `TaskDelegation`: the manager's bookkeeping record. -/
structure TaskDelegation where
  task : SubagentTask
  agent : List Char
  dstatus : DStatus
  result : Option SubagentResult
  startTime : Option Int
  endTime : Option Int

/-- A registered subagent, as the manager sees it: `getInfo().name`, the
`canHandle` predicate, and the behaviour of `execute` on each task (`.ok` a
result, `.error` a thrown exception's message). -/
structure AgentBeh where
  name : List Char
  canHandle : SubagentTask → Bool
  execRes : SubagentTask → Except (List Char) SubagentResult

/-- The manager's mutable state: the registry (insertion order), the active
delegation map (association list keyed by task id, insertion order), and the
append-only completed list. -/
structure MState where
  agents : List AgentBeh
  activeTasks : List (List Char × TaskDelegation)
  completedTasks : List TaskDelegation

/-- JavaScript `Map.prototype.set` / nanostores `map.setKey` on an
association list: overwrite in place when the key exists, append
otherwise. -/
def setKey {V : Type} (m : List (List Char × V)) (k : List Char)
    (v : V) : List (List Char × V) :=
  match m with
  | [] => [(k, v)]
  | (k', v') :: tl => if k' = k then (k, v) :: tl else (k', v') :: setKey tl k v

/-- JavaScript `Map.prototype.delete` on an association list. -/
def eraseKey {V : Type} (m : List (List Char × V)) (k : List Char) :
    List (List Char × V) :=
  match m with
  | [] => []
  | (k', v') :: tl => if k' = k then tl else (k', v') :: eraseKey tl k

/-- Key lookup (`Map.prototype.get` / indexing the nanostores record). -/
def getKey {V : Type} (m : List (List Char × V)) (k : List Char) : Option V :=
  match m with
  | [] => none
  | (k', v') :: tl => if k' = k then some v' else getKey tl k

namespace SubagentManager

/-- `SubagentManager.calculateAgentScore`: base 100, −20 when the agent has
an active task, `+ successRate × 20` over its completed delegations (skipped
when it has none), and a flat priority boost.  Scores are exact rationals;
the JavaScript floats agree on every comparison the manager makes (sums of
small integers and one quotient of small naturals). -/
def calculateAgentScore (st : MState) (agent : AgentBeh)
    (task : SubagentTask) : ℚ :=
  let base : ℚ := 100
  let isBusy := st.activeTasks.any (fun p => p.2.agent == agent.name)
  let afterBusy := if isBusy then base - 20 else base
  let agentTasks := st.completedTasks.filter (fun t => t.agent == agent.name)
  let afterRate :=
    if agentTasks.length > 0 then
      afterBusy +
        ((agentTasks.filter (fun t => t.dstatus == DStatus.completed)).length : ℚ) /
          (agentTasks.length : ℚ) * 20
    else afterBusy
  if task.priority == TPriority.critical then afterRate + 30
  else if task.priority == TPriority.high then afterRate + 20
  else afterRate

/-- One step of a stable descending insertion: place `x` before the first
strictly smaller score, after every earlier element with an equal or larger
one.  A stable sort is unique, so this models
`suitableAgents.sort((a, b) => b.score - a.score)` (JavaScript's sort is
stable). -/
def insertDesc (x : AgentBeh × ℚ) : List (AgentBeh × ℚ) → List (AgentBeh × ℚ)
  | [] => [x]
  | y :: ys => if x.2 ≥ y.2 then x :: y :: ys else y :: insertDesc x ys

/-- Stable descending sort by score (see `insertDesc`). -/
def sortDesc : List (AgentBeh × ℚ) → List (AgentBeh × ℚ)
  | [] => []
  | x :: xs => insertDesc x (sortDesc xs)

/-- `SubagentManager.findSuitableAgent`: score exactly the agents whose
`canHandle` accepts the task, sort by descending score (stable), and take
the head. -/
def findSuitableAgent (st : MState) (task : SubagentTask) : Option AgentBeh :=
  let suitableAgents :=
    (st.agents.filter (fun ag => ag.canHandle task)).map
      (fun ag => (ag, calculateAgentScore st ag task))
  match sortDesc suitableAgents with
  | [] => none
  | best :: _ => some best.1

/-- `SubagentManager.delegateTask`: no capable agent yields an immediate
`success: false` result (the model is a total function — nothing throws);
otherwise a delegation is recorded as `running`, the agent executes, and the
delegation moves to the completed list with its final status.  `now` stands
for `Date.now()` / `new Date()`. -/
def delegateTask (st : MState) (task : SubagentTask) (now : Int) :
    MState × SubagentResult :=
  match findSuitableAgent st task with
  | none =>
    (st,
      { taskId := task.id
        agentName := "SubagentManager".toList
        success := false
        errors := some ["No suitable agent found for this task type".toList]
        timestamp := now })
  | some agent =>
    let delegation : TaskDelegation :=
      { task := task, agent := agent.name, dstatus := DStatus.running,
        result := none, startTime := some now, endTime := none }
    let st1 : MState := { st with activeTasks := setKey st.activeTasks task.id delegation }
    match agent.execRes task with
    | Except.ok result =>
      let delegation2 :=
        { delegation with
            dstatus := if result.success then DStatus.completed else DStatus.failed
            result := some result
            endTime := some now }
      ({ st1 with
          activeTasks := eraseKey st1.activeTasks task.id
          completedTasks := st1.completedTasks ++ [delegation2] },
        result)
    | Except.error msg =>
      let delegation2 :=
        { delegation with dstatus := DStatus.failed, endTime := some now }
      ({ st1 with
          activeTasks := eraseKey st1.activeTasks task.id
          completedTasks := st1.completedTasks ++ [delegation2] },
        { taskId := task.id
          agentName := agent.name
          success := false
          errors := some [msg]
          timestamp := now })

/-- The capable agents, in registration order: the candidates the claim's
selection rule quantifies over. -/
def capableAgents (st : MState) (task : SubagentTask) : List AgentBeh :=
  st.agents.filter (fun ag => ag.canHandle task)

/-- The claim's scoring formula, written as the specification states it:
`100 − (20 if busy) + 20 × successFraction (0 without history) + (30
critical / 20 high / 0)`. -/
def claimScore (st : MState) (agent : AgentBeh) (task : SubagentTask) : ℚ :=
  let history := st.completedTasks.filter (fun t => t.agent == agent.name)
  100 -
    (if st.activeTasks.any (fun p => p.2.agent == agent.name) then (20 : ℚ) else 0) +
    20 *
      (if history.length = 0 then (0 : ℚ)
       else ((history.filter (fun t => t.dstatus == DStatus.completed)).length : ℚ) /
         (history.length : ℚ)) +
    (if task.priority = TPriority.critical then (30 : ℚ)
     else if task.priority = TPriority.high then 20 else 0)

/-- The first element of maximal score, in list order: later elements
displace the running best only with a strictly larger score. -/
def firstMax : List (AgentBeh × ℚ) → Option (AgentBeh × ℚ)
  | [] => none
  | x :: xs =>
    match firstMax xs with
    | none => some x
    | some b => if b.2 > x.2 then some b else some x

end SubagentManager

/-! Concrete scenario used by the dispatch witness: two universally capable
agents registered in order, and a separate registry whose only agent
declines every task. -/

namespace C3W

def taskW : SubagentTask :=
  { id := "t1".toList, description := "build an api".toList,
    priority := TPriority.high }

def agentA : AgentBeh :=
  { name := "BackendAgent".toList
    canHandle := fun _ => true
    execRes := fun t =>
      Except.ok
        { taskId := t.id, agentName := "BackendAgent".toList, success := true,
          errors := none, timestamp := 0 } }

def agentB : AgentBeh :=
  { name := "FrontendAgent".toList
    canHandle := fun _ => true
    execRes := fun t =>
      Except.ok
        { taskId := t.id, agentName := "FrontendAgent".toList, success := true,
          errors := none, timestamp := 0 } }

def agentC : AgentBeh :=
  { name := "NicheAgent".toList
    canHandle := fun _ => false
    execRes := fun t =>
      Except.ok
        { taskId := t.id, agentName := "NicheAgent".toList, success := true,
          errors := none, timestamp := 0 } }

def stW : MState := { agents := [agentA, agentB], activeTasks := [], completedTasks := [] }

def stN : MState := { agents := [agentC], activeTasks := [], completedTasks := [] }

end C3W

/-! ## Action runner (`src/app/lib/runtime/action-runner.ts`)

The runner is a state machine over its `actions` map.  The sandboxed
runtime it drives (webcontainer filesystem, `BoltShell`, the lazily built
`TestRunner`) is an external collaborator, abstracted as an environment
oracle `REnv` giving the outcome of every awaited leaf operation.  The
single execution-promise chain serialises executions; with callers awaiting
`runAction` sequentially this is modelled by executing at enqueue time, and
the chain's `.catch` — which swallows a failed execution so later actions
still run — by discarding the escaped-exception flag `executeAction`
returns.  `start` actions are fire-and-forget: their promise is recorded in
`detached` and resolved after the chain quiesces. -/

/-- The action types of the `BoltAction` tagged union. -/
inductive AType
| file
| shell
| start
| build
| supabase
| test
| validate
| feedback
deriving DecidableEq

/-- `SupabaseAction.operation`. -/
inductive SupaOp
| migration
| query
deriving DecidableEq

/-- The type-specific action payload the runner reads: the tag, the textual
content, the optional file path (file writes, supabase migrations), and the
supabase operation. -/
structure ActionData where
  atype : AType
  content : List Char
  filePath : Option (List Char)
  operation : Option SupaOp
deriving DecidableEq

/-- Per-action lifecycle status. -/
inductive AStatus
| pending
| running
| complete
| aborted
| failed
deriving DecidableEq

/-- `ActionState`: the stored action plus status, the `executed` flag, the
abort flag (`abortSignal.aborted` — live, shared with the stored object),
and the error string a `failed` status carries. -/
structure ActionState where
  data : ActionData
  status : AStatus
  executed : Bool
  aborted : Bool
  error : Option (List Char)
deriving DecidableEq

/-- The runner's state: the actions map (insertion order), the pending
`status: 'running'` transitions `addAction` schedules on the current chain,
the unresolved fire-and-forget `start` promises, and the cached build
output. -/
structure RState where
  actions : List (List Char × ActionState)
  scheduled : List (List Char)
  detached : List (List Char)
  buildOutput : Option (List Char × Int)
deriving DecidableEq

/-- A thrown JavaScript error, split the way the catch blocks split it:
`ActionCommandError` (header + captured output) versus any other `Error`. -/
inductive JsErr
| cmdError (header output : List Char)
| plainError (msg : List Char)
deriving DecidableEq

/-- The sandboxed runtime's behaviour for one run: outcomes of every leaf
operation `#executeAction` awaits, plus when an `abort()` arrives while an
action's awaited operation is in flight. -/
structure REnv where
  /-- `webcontainer.fs.readdir('backend')` succeeds. -/
  backendDirExists : Bool
  /-- `shell.executeCommand(content)` exit code, for `shell` actions. -/
  shellExitCode : List Char → Int
  /-- Captured output of the shell command. -/
  shellOutput : List Char → List Char
  /-- Exit code of the dev-server command, for `start` actions. -/
  startExitCode : List Char → Int
  /-- Captured output of the dev-server command. -/
  startOutput : List Char → List Char
  /-- `npm run build` exit code. -/
  buildExitCode : Int
  /-- Captured build output text. -/
  buildOutText : List Char
  /-- The webcontainer working directory. -/
  workdir : List Char
  /-- Directories that exist under the working directory. -/
  existingDirs : List (List Char)
  /-- The external `TestRunner.runTestAction` throws for this action id
  (its message); `none` means it resolves. -/
  testThrows : List Char → Option (List Char)
  /-- `abort()` is invoked while this action's awaited operation runs. -/
  abortDuring : List Char → Bool

namespace ActionRunner

/-- Look up an action. -/
def lookup (st : RState) (id : List Char) : Option ActionState :=
  getKey st.actions id

/-- `#updateAction(id, { status })`: merge a status update into the stored
action (no-op when the id is absent, which no modelled path reaches). -/
def setStatus (st : RState) (id : List Char) (x : AStatus) : RState :=
  match getKey st.actions id with
  | none => st
  | some a => { st with actions := setKey st.actions id ({ a with status := x }) }

/-- `#updateAction(id, { status: 'failed', error })`. -/
def setFailed (st : RState) (id : List Char) (msg : List Char) : RState :=
  match getKey st.actions id with
  | none => st
  | some a =>
    { st with
        actions :=
          setKey st.actions id ({ a with status := AStatus.failed, error := some msg }) }

/-- The `abort` closure installed by `addAction`: signal the abort
controller and force the status to `aborted`. -/
def abortAction (st : RState) (id : List Char) : RState :=
  match getKey st.actions id with
  | none => st
  | some a =>
    { st with
        actions :=
          setKey st.actions id ({ a with aborted := true, status := AStatus.aborted }) }

/-- `addAction`: a no-op when the id is already known; otherwise register
the action as `pending`/unexecuted and schedule a transition to `running`
for when the current execution chain drains. -/
def addAction (st : RState) (id : List Char) (d : ActionData) : RState :=
  match getKey st.actions id with
  | some _ => st
  | none =>
    { st with
        actions :=
          setKey st.actions id
            ({ data := d, status := AStatus.pending, executed := false,
               aborted := false, error := none })
        scheduled := st.scheduled ++ [id] }

/-- `#runShellAction`: a backend-referencing command (that is not itself a
`mkdir`) fails fast with a dedicated command error when the `backend`
directory is missing; otherwise the shell runs it and a non-zero exit code
raises a command error carrying the captured output. -/
def runShellAction (env : REnv) (d : ActionData) : Except JsErr Unit :=
  let isBackendCommand :=
    containsSub d.content "cd backend".toList ||
    containsSub d.content "uvicorn".toList ||
    containsSub d.content "python main.py".toList ||
    containsSub d.content "pip install".toList
  if isBackendCommand && !containsSub d.content "mkdir".toList &&
      !env.backendDirExists then
    Except.error (JsErr.cmdError "Backend Directory Not Found".toList
      "The backend directory does not exist. Please switch to Backend mode and generate the backend code first.".toList)
  else if env.shellExitCode d.content ≠ 0 then
    Except.error (JsErr.cmdError "Failed To Execute Shell Command".toList
      (env.shellOutput d.content))
  else Except.ok ()

/-- `#runFileAction`: the `mkdir` and the `writeFile` are each wrapped in a
`try`/`catch` that only logs, so a file action never propagates an
exception — a single bad file write must not abort the chain. -/
def runFileAction (_env : REnv) (_d : ActionData) : Except JsErr Unit :=
  Except.ok ()

/-- `#runStartAction`'s eventual outcome (the detached promise): the
backend-directory precondition, then the dev-server command, whose non-zero
exit raises a command error.  (The compilation-error inspection between the
two only fires callbacks; it does not touch action state.) -/
def runStartOutcome (env : REnv) (d : ActionData) : Except JsErr Unit :=
  let isBackendCommand :=
    containsSub d.content "cd backend".toList ||
    containsSub d.content "uvicorn".toList ||
    containsSub d.content "main:app".toList
  if isBackendCommand && !env.backendDirExists then
    Except.error (JsErr.cmdError "Backend Not Found".toList
      "The backend directory does not exist yet. Please generate the backend code first by describing your API requirements in Backend mode.".toList)
  else if env.startExitCode d.content ≠ 0 then
    Except.error (JsErr.cmdError "Failed To Start Application".toList
      (env.startOutput d.content))
  else Except.ok ()

/-- `handleSupabaseAction`: a migration without a `filePath` throws; a
migration with one writes the file (via `#runFileAction`, which never
throws); a query only raises an alert.  `SupabaseAction.operation` outside
the two known values throws `Unknown operation`. -/
def handleSupabaseAction (_env : REnv) (d : ActionData) : Except JsErr Unit :=
  match d.operation with
  | some SupaOp.migration =>
    match d.filePath with
    | none => Except.error (JsErr.plainError "Migration requires a filePath".toList)
    | some _ => Except.ok ()
  | some SupaOp.query => Except.ok ()
  | none => Except.error (JsErr.plainError "Unknown operation: undefined".toList)

/-- `#runBuildAction`: spawn the build; non-zero exit raises a command
error; on success return the first conventional output directory that
exists (default `dist`), joined to the working directory. -/
def runBuildAction (env : REnv) : Except JsErr (List Char × Int) :=
  if env.buildExitCode ≠ 0 then
    Except.error (JsErr.cmdError "Build Failed".toList env.buildOutText)
  else
    let commonBuildDirs : List (List Char) :=
      ["dist".toList, "build".toList, "out".toList, "output".toList,
        ".next".toList, "public".toList]
    let buildDir :=
      match commonBuildDirs.find? (fun dir => env.existingDirs.contains dir) with
      | some dir => env.workdir ++ "/".toList ++ dir
      | none => env.workdir ++ "/".toList ++ "dist".toList
    Except.ok (buildDir, env.buildExitCode)

/-- The payload of the auto-test action `#runAutomatedTests` registers. -/
def autoTestData : ActionData :=
  { atype := AType.test
    content := "Running automated tests after build...".toList
    filePath := none
    operation := none }

/-- The auto-test id derived from a build action's id. -/
def autoTestId (id : List Char) : List Char := id ++ "-autotest".toList

/-- `#runAutomatedTests`: register `${buildActionId}-autotest` directly in
the actions map and delegate to the external `TestRunner`; every failure of
that delegation is caught internally (alerts only), so no further action
state changes. -/
def runAutomatedTests (_env : REnv) (st : RState) (buildId : List Char) :
    RState :=
  { st with
      actions :=
        setKey st.actions (autoTestId buildId)
          ({ data := autoTestData, status := AStatus.pending, executed := false,
             aborted := false, error := none }) }

/-- `#runTestAction` for a directly enqueued test action: the lazily built
`TestRunner` is external; when its `runTestAction` rejects, the wrapper
alerts and re-throws. -/
def runTestOutcome (env : REnv) (id : List Char) : Except JsErr Unit :=
  match env.testThrows id with
  | some msg => Except.error (JsErr.plainError msg)
  | none => Except.ok ()

/-- The final status update at the end of `#executeAction`'s `try` block:
`running` while streaming, else `aborted` when the (live) abort signal is
set, else `complete`. -/
def finalize (st : RState) (id : List Char) (isStreaming : Bool) : RState :=
  match getKey st.actions id with
  | none => st
  | some a =>
    { st with
        actions :=
          setKey st.actions id
            ({ a with
                status :=
                  if isStreaming then AStatus.running
                  else if a.aborted then AStatus.aborted
                  else AStatus.complete }) }

/-- `#executeAction`'s `catch` block: an abort observed on the signal
swallows the error (leaving the status as it stands); otherwise the action
is marked `failed` and only an `ActionCommandError` is re-thrown to the
chain (whose own `.catch` then swallows it). -/
def catchBranch (st : RState) (id : List Char) (e : JsErr) : RState × Bool :=
  match getKey st.actions id with
  | none => (st, false)
  | some a =>
    if a.aborted then (st, false)
    else
      let st2 := setFailed st id "Action failed".toList
      match e with
      | JsErr.cmdError _ _ => (st2, true)
      | JsErr.plainError _ => (st2, false)

/-- `#executeAction`: set `running`, dispatch on the action type, then the
final status update; exceptions go through `catchBranch`.  The returned
flag is the exception (if any) escaping into the chain.  A mid-flight
`abort()` (`env.abortDuring`) lands between the awaited operation and the
inspection of its outcome. -/
def executeAction (env : REnv) (st : RState) (id : List Char)
    (isStreaming : Bool) : RState × Bool :=
  match getKey st.actions id with
  | none => (st, false)
  | some a0 =>
    let st := setStatus st id AStatus.running
    match a0.data.atype with
    | AType.shell =>
      let st1 := if env.abortDuring id then abortAction st id else st
      match runShellAction env a0.data with
      | Except.ok _ => (finalize st1 id isStreaming, false)
      | Except.error e => catchBranch st1 id e
    | AType.file =>
      let st1 := if env.abortDuring id then abortAction st id else st
      match runFileAction env a0.data with
      | Except.ok _ => (finalize st1 id isStreaming, false)
      | Except.error e => catchBranch st1 id e
    | AType.supabase =>
      let st1 := if env.abortDuring id then abortAction st id else st
      match handleSupabaseAction env a0.data with
      | Except.ok _ => (finalize st1 id isStreaming, false)
      | Except.error e =>
        -- the supabase branch has its own catch: mark `failed` with the
        -- error's message and return early — no abort check, no re-throw,
        -- and no final status update
        (setFailed st1 id
          (match e with
           | JsErr.cmdError h _ => h
           | JsErr.plainError m => m), false)
    | AType.build =>
      let st1 := if env.abortDuring id then abortAction st id else st
      match runBuildAction env with
      | Except.ok out =>
        let st2 := { st1 with buildOutput := some out }
        let st3 := if out.2 == 0 then runAutomatedTests env st2 id else st2
        (finalize st3 id isStreaming, false)
      | Except.error e => catchBranch st1 id e
    | AType.test =>
      let st1 := if env.abortDuring id then abortAction st id else st
      match runTestOutcome env id with
      | Except.ok _ => (finalize st1 id isStreaming, false)
      | Except.error e => catchBranch st1 id e
    | AType.start =>
      -- fire-and-forget: note the dangling promise and return after the
      -- settle delay, leaving the status at `running`
      ({ st with detached := st.detached ++ [id] }, false)
    | AType.validate =>
      -- no switch case: fall through to the final status update
      (finalize st id isStreaming, false)
    | AType.feedback =>
      (finalize st id isStreaming, false)

/-- `runAction`: an unknown id throws (`unreachable`, modelled from the
call: `Action ${actionId} not found`); an already-executed action and a
streaming non-file action return with nothing changed; otherwise the
streamed data is merged, `executed` set to `!isStreaming`, and the
execution appended to the chain, whose `.catch` swallows any escaped
exception (the discarded flag). -/
def runAction (env : REnv) (st : RState) (id : List Char) (d : ActionData)
    (isStreaming : Bool) : Except (List Char) Unit × RState :=
  match getKey st.actions id with
  | none =>
    -- `unreachable` throws its message before any mutation: the caller
    -- sees the exception and the untouched state
    (Except.error ("Action ".toList ++ id ++ " not found".toList), st)
  | some a =>
    if a.executed then (Except.ok (), st)
    else if isStreaming && !(a.data.atype == AType.file) then (Except.ok (), st)
    else
      let st1 :=
        { st with
            actions :=
              setKey st.actions id ({ a with data := d, executed := !isStreaming }) }
      let (st2, _escaped) := executeAction env st1 id isStreaming
      (Except.ok (), st2)

/-- The `status: 'running'` transitions `addAction` scheduled fire when the
chain they were attached to drains — before the next execution starts, and
at quiescence for actions never run. -/
def drainScheduled (st : RState) : RState :=
  let st' := st.scheduled.foldl (fun s i => setStatus s i AStatus.running) st
  { st' with scheduled := [] }

/-- Resolution of one detached `start` promise: `.then` marks `complete`;
the `.catch` swallows everything after an abort and otherwise marks
`failed` (alerting on a command error). -/
def resolveStart (env : REnv) (st : RState) (id : List Char) : RState :=
  let st1 := if env.abortDuring id then abortAction st id else st
  match getKey st1.actions id with
  | none => st1
  | some a =>
    match runStartOutcome env a.data with
    | Except.ok _ => setStatus st1 id AStatus.complete
    | Except.error _ =>
      if a.aborted then st1
      else setFailed st1 id "Action failed".toList

/-- Resolve every dangling `start` promise, in launch order. -/
def resolveDetachedAll (env : REnv) (st : RState) : RState :=
  st.detached.foldl (resolveStart env) st

/-- One enqueue step as the claims exercise it: `addAction`, the scheduled
`running` transitions firing as the drained chain hands over, then a
non-streaming `runAction` (which cannot hit the unknown-id throw, the
action having just been registered). -/
def step (env : REnv) (st : RState) (p : List Char × ActionData) : RState :=
  let st1 := addAction st p.1 p.2
  let st2 := drainScheduled st1
  (runAction env st2 p.1 p.2 false).2

/-- Enqueue a whole sequence of actions through `runAction`
(`isStreaming = false`), in order. -/
def runSeq (env : REnv) (st : RState) (items : List (List Char × ActionData)) :
    RState :=
  items.foldl (step env) st

/-- The runner's initial state. -/
def initState : RState :=
  { actions := [], scheduled := [], detached := [], buildOutput := none }

/-- Run a sequence from a fresh runner and let every dangling `start`
promise settle: the quiescent final state. -/
def runToQuiescence (env : REnv)
    (items : List (List Char × ActionData)) : RState :=
  resolveDetachedAll env (runSeq env initState items)

/-- The status of an action in a state. -/
def statusOf (st : RState) (id : List Char) : Option AStatus :=
  (getKey st.actions id).map (fun a => a.status)

/-- The outcome of an action's own execution under `env`, per dispatch
branch — the per-action summary the sequencing theorems quantify with.
(`validate`/`feedback` have no switch case and succeed; `file` never
throws.) -/
def execOutcome (env : REnv) (id : List Char) (d : ActionData) :
    Except JsErr Unit :=
  match d.atype with
  | AType.file => runFileAction env d
  | AType.shell => runShellAction env d
  | AType.supabase => handleSupabaseAction env d
  | AType.build =>
    match runBuildAction env with
    | Except.ok _ => Except.ok ()
    | Except.error e => Except.error e
  | AType.test => runTestOutcome env id
  | AType.start => runStartOutcome env d
  | AType.validate => Except.ok ()
  | AType.feedback => Except.ok ()

end ActionRunner

/-! Concrete runner scenarios used by witnesses and counterexamples. -/

namespace RW

/-- A benign environment: everything succeeds, nothing aborts. -/
def envW : REnv :=
  { backendDirExists := true
    shellExitCode := fun _ => 0
    shellOutput := fun _ => []
    startExitCode := fun _ => 0
    startOutput := fun _ => []
    buildExitCode := 0
    buildOutText := []
    workdir := "/home/project".toList
    existingDirs := ["dist".toList]
    testThrows := fun _ => none
    abortDuring := fun _ => false }

def shellData : ActionData :=
  { atype := AType.shell, content := "npm install".toList,
    filePath := none, operation := none }

def fileData : ActionData :=
  { atype := AType.file, content := "console.log(1)".toList,
    filePath := some "/home/project/src/a.ts".toList, operation := none }

/-- One registered, pending, unexecuted shell action. -/
def stOne : RState :=
  { actions :=
      [("a1".toList,
        { data := shellData, status := AStatus.pending, executed := false,
          aborted := false, error := none })]
    scheduled := []
    detached := []
    buildOutput := none }

/-- A supabase migration without a `filePath` (its execution throws). -/
def supaNoPath : ActionData :=
  { atype := AType.supabase, content := "create table items ();".toList,
    filePath := none, operation := some SupaOp.migration }

/-- The aborted supabase action: `abort()` has run (status forced to
`aborted`, signal set), execution still pending. -/
def stAborted : RState :=
  { actions :=
      [("sb".toList,
        { data := supaNoPath, status := AStatus.aborted, executed := false,
          aborted := true, error := none })]
    scheduled := []
    detached := []
    buildOutput := none }

/-- A registered, pending shell action for the abort-mid-flight witness. -/
def stShell2 : RState :=
  { actions :=
      [("sh".toList,
        { data := shellData, status := AStatus.pending, executed := false,
          aborted := false, error := none })]
    scheduled := []
    detached := []
    buildOutput := none }

/-- An environment where the shell command fails and the abort arrives while
it runs. -/
def envAbortFail : REnv :=
  { envW with
      shellExitCode := fun _ => 1
      shellOutput := fun _ => "boom".toList
      abortDuring := fun id => id == "sh".toList }

/-- An environment whose shell commands all fail (nothing aborts). -/
def envShellFail : REnv :=
  { envW with
      shellExitCode := fun _ => 1
      shellOutput := fun _ => "err".toList }

/-- A failing shell action followed by a file action. -/
def c2items : List (List Char × ActionData) :=
  [("one".toList, shellData), ("two".toList, fileData)]

end RW

/-! ## The error monitor (`src/app/lib/runtime/error-monitor.ts`)

`monitorOutput` runs JavaScript regular expressions over raw process
output.  The model embeds the exact regex literals over a small executable
engine with JavaScript semantics: leftmost match, alternation prefers the
left branch, greedy quantifiers prefer longer and lazy (`*?`, `+?`)
shorter matches, `.` excludes line terminators, and `$` with the `m` flag
matches at the end of input or before a line feed. -/

/-- Syntax of the regex fragment the monitor uses. -/
inductive Re
| eps
| lit (c : Char)
| cls (p : Char → Bool)
| cat (r1 r2 : Re)
| alt (r1 r2 : Re)
| starG (r : Re)
| starL (r : Re)
| plusG (r : Re)
| plusL (r : Re)
| group (idx : Nat) (r : Re)
| eol

/-- Numbered capture groups (index, captured text). -/
abbrev Caps := List (Nat × List Char)

/-- Record a capture, overwriting an earlier iteration's value. -/
def setCap (i : Nat) (v : List Char) : Caps → Caps
  | [] => [(i, v)]
  | (j, w) :: tl => if j = i then (i, v) :: tl else (j, w) :: setCap i v tl

/-- Read a capture. -/
def capGet (caps : Caps) (i : Nat) : Option (List Char) :=
  match caps with
  | [] => none
  | (j, w) :: tl => if j = i then some w else capGet tl i

/-- JavaScript `.` (no `s` flag): any character except a line terminator. -/
def isDotC (c : Char) : Bool :=
  !(c == '\n' || c == '\r' || c == Char.ofNat 0x2028 || c == Char.ofNat 0x2029)

/-- JavaScript `\s`. -/
def isJsSpace (c : Char) : Bool :=
  c == ' ' || c == '\t' || c == '\n' || c == '\r' ||
  c == Char.ofNat 0x0b || c == Char.ofNat 0x0c || c == Char.ofNat 0xa0 ||
  c == Char.ofNat 0xfeff || c == Char.ofNat 0x1680 ||
  (Char.ofNat 0x2000 ≤ c && c ≤ Char.ofNat 0x200a) ||
  c == Char.ofNat 0x2028 || c == Char.ofNat 0x2029 ||
  c == Char.ofNat 0x202f || c == Char.ofNat 0x205f || c == Char.ofNat 0x3000

/-- `[\s\S]`: any character. -/
def anyC (_ : Char) : Bool := true

/-- The backtracking matcher, continuation passing, in JavaScript's
preference order; `fuel` bounds the total number of engine steps (the
quantifier bodies here always consume, so the in-loop progress guard only
mirrors the engine's refusal to loop on empty matches). -/
def reMatch (fuel : Nat) (r : Re) (s : List Char) (caps : Caps)
    (k : List Char → Caps → Option Caps) : Option Caps :=
  match fuel with
  | 0 => none
  | fuel + 1 =>
    match r with
    | Re.eps => k s caps
    | Re.lit c =>
      match s with
      | [] => none
      | c' :: rest => if c' = c then k rest caps else none
    | Re.cls p =>
      match s with
      | [] => none
      | c' :: rest => if p c' then k rest caps else none
    | Re.cat r1 r2 =>
      reMatch fuel r1 s caps (fun s1 c1 => reMatch fuel r2 s1 c1 k)
    | Re.alt r1 r2 =>
      match reMatch fuel r1 s caps k with
      | some res => some res
      | none => reMatch fuel r2 s caps k
    | Re.starG r1 =>
      match reMatch fuel r1 s caps (fun s1 c1 =>
          if s1.length < s.length then reMatch fuel (Re.starG r1) s1 c1 k
          else none) with
      | some res => some res
      | none => k s caps
    | Re.starL r1 =>
      match k s caps with
      | some res => some res
      | none =>
        reMatch fuel r1 s caps (fun s1 c1 =>
          if s1.length < s.length then reMatch fuel (Re.starL r1) s1 c1 k
          else none)
    | Re.plusG r1 => reMatch fuel (Re.cat r1 (Re.starG r1)) s caps k
    | Re.plusL r1 => reMatch fuel (Re.cat r1 (Re.starL r1)) s caps k
    | Re.group i r1 =>
      reMatch fuel r1 s caps (fun s1 c1 =>
        k s1 (setCap i (s.take (s.length - s1.length)) c1))
    | Re.eol =>
      match s with
      | [] => k s caps
      | c :: _ => if c = '\n' then k s caps else none

/-- A generous step budget: evaluation only ever spends as many steps as
the actual backtracking walk takes. -/
def reFuel (s : List Char) : Nat := (s.length + 4) ^ 4 * 64 + 4096

/-- Try the pattern at each start index in order: `String.prototype.match`
without the `g` flag (leftmost match; the captures are what the monitor
destructures). -/
def jsSearch (fuel : Nat) (r : Re) (s : List Char) : Option Caps :=
  match reMatch fuel r s [] (fun _ caps => some caps) with
  | some caps => some caps
  | none =>
    match s with
    | [] => none
    | _ :: tl => jsSearch fuel r tl

def jsMatch (r : Re) (s : List Char) : Option Caps := jsSearch (reFuel s) r s

/-- A literal word as a regex. -/
def litStr : List Char → Re
  | [] => Re.eps
  | c :: rest => Re.cat (Re.lit c) (litStr rest)

/-- The apostrophe character (U+0027). -/
def apos : Char := Char.ofNat 39

/-- Division-by-ten digit recursion, fuelled so the recursion stays
structural (`n + 1` always exceeds the digit count of `n`). -/
def natToDigsAux : Nat → Nat → List Char
  | 0, _ => []
  | fuel + 1, n =>
    if n < 10 then [Char.ofNat (48 + n)]
    else natToDigsAux fuel (n / 10) ++ [Char.ofNat (48 + n % 10)]

/-- Decimal digits of a natural number, most significant first (the shape
of JavaScript template interpolation and `JSON.stringify` for naturals). -/
def natToDigs (n : Nat) : List Char := natToDigsAux (n + 1) n

namespace ErrorMonitor

/-- The inline TypeScript-error pattern of `monitorOutput`:
`(.*?)\((\d+),(\d+)\): error TS(\d+): (.+)` with `\s+` around `error` and
after the code's colon. -/
def tsRegex : Re :=
  Re.cat (Re.group 1 (Re.starL (Re.cls isDotC)))
  (Re.cat (Re.lit '(')
  (Re.cat (Re.group 2 (Re.plusG (Re.cls isDig)))
  (Re.cat (Re.lit ',')
  (Re.cat (Re.group 3 (Re.plusG (Re.cls isDig)))
  (Re.cat (Re.lit ')')
  (Re.cat (Re.lit ':')
  (Re.cat (Re.plusG (Re.cls isJsSpace))
  (Re.cat (litStr "error".toList)
  (Re.cat (Re.plusG (Re.cls isJsSpace))
  (Re.cat (litStr "TS".toList)
  (Re.cat (Re.group 4 (Re.plusG (Re.cls isDig)))
  (Re.cat (Re.lit ':')
  (Re.cat (Re.plusG (Re.cls isJsSpace))
          (Re.group 5 (Re.plusG (Re.cls isDotC))))))))))))))))

/-- The Vite/Babel pattern of `monitorOutput`:
`\[plugin:vite:.*?\]\s+(.+?):(\d+):(\d+)[\s\S]*?$` with the `m` flag. -/
def viteRegex : Re :=
  Re.cat (litStr "[plugin:vite:".toList)
  (Re.cat (Re.starL (Re.cls isDotC))
  (Re.cat (Re.lit ']')
  (Re.cat (Re.plusG (Re.cls isJsSpace))
  (Re.cat (Re.group 1 (Re.plusL (Re.cls isDotC)))
  (Re.cat (Re.lit ':')
  (Re.cat (Re.group 2 (Re.plusG (Re.cls isDig)))
  (Re.cat (Re.lit ':')
  (Re.cat (Re.group 3 (Re.plusG (Re.cls isDig)))
  (Re.cat (Re.starL (Re.cls anyC)) Re.eol)))))))))

/-- `Cannot resolve '(.+?)'`. -/
def cannotResolveRegex : Re :=
  Re.cat (litStr ("Cannot resolve ".toList ++ [apos]))
  (Re.cat (Re.group 1 (Re.plusL (Re.cls isDotC))) (Re.lit apos))

/-- `in '(.+?)'`. -/
def inFileRegex : Re :=
  Re.cat (litStr ("in ".toList ++ [apos]))
  (Re.cat (Re.group 1 (Re.plusL (Re.cls isDotC))) (Re.lit apos))

/-- The per-line scan of `extractErrorMessage`: the first line containing a
known indicator picks the corresponding summary. -/
def extractLoop : List (List Char) → Option (List Char)
  | [] => none
  | l :: rest =>
    if containsSub l "Unexpected token".toList then
      some ("Syntax Error: Unexpected token - likely missing closing bracket, parenthesis, or incomplete statement".toList)
    else if containsSub l "Unexpected identifier".toList then
      some ("Syntax Error: Unexpected identifier - check for missing commas or operators".toList)
    else if containsSub l "Declaration or statement expected".toList then
      some ("Syntax Error: Declaration or statement expected - check for incomplete code blocks".toList)
    else extractLoop rest

/-- `extractErrorMessage(output, lineNumber)`: scan the lines for known
indicators, else quote the reported source line (the JavaScript
`lineNumber &&` guard makes 0 falsy). -/
def extractErrorMessage (output : List Char) (lineNumber : Nat) : List Char :=
  let lines := splitLines output
  match extractLoop lines with
  | some m => m
  | none =>
    if lineNumber ≠ 0 ∧ lines.length > lineNumber then
      "Error at line ".toList ++ natToDigs lineNumber ++ ": ".toList ++
        jsTrim (lines.getD (lineNumber - 1) [])
    else "Compilation error detected".toList

/-- `generateSuggestion`. -/
def generateSuggestion (errorMessage fullError : List Char) : List Char :=
  if containsSub fullError "import".toList &&
      containsSub fullError "Unexpected token".toList then
    "Complete the import statement. Ensure all imported items are listed and the statement ends with a proper source module.".toList
  else if containsSub errorMessage "closing".toList then
    "Add the missing closing bracket, brace, or parenthesis.".toList
  else if containsSub fullError "JSX".toList then
    "Check JSX syntax - ensure all tags are properly closed and attributes are correctly formatted.".toList
  else
    "Review the syntax at the specified line and fix any formatting issues.".toList

/-- `generateTypeScriptSuggestion`: the fixed code→hint table with its
generic fallback (the message parameter is accepted and unused, as in the
source). -/
def generateTypeScriptSuggestion (errorCode _message : List Char) : List Char :=
  if errorCode = "2307".toList then
    "Install the missing module or check the import path".toList
  else if errorCode = "2304".toList then
    "Define the variable or import it from the appropriate module".toList
  else if errorCode = "2339".toList then
    "Check if the property exists on the type or add it to the interface".toList
  else if errorCode = "2345".toList then
    "Fix the type mismatch - ensure the argument types match the expected parameters".toList
  else if errorCode = "2322".toList then
    "Fix the type assignment - the types are not compatible".toList
  else "Fix the TypeScript error based on the message".toList

/-- `ErrorMonitor.monitorOutput`: the three pattern checks run
independently and their hits are concatenated (and appended to the
instance's buffer, which the return value does not include); `now` stands
for `Date.now()`. -/
def monitorOutput (output : List Char) (now : Nat) : List CompilationError :=
  let viteErrs : List CompilationError :=
    match jsMatch viteRegex output with
    | some caps =>
      let file := (capGet caps 1).getD []
      let line := digsToNat ((capGet caps 2).getD [])
      let column := digsToNat ((capGet caps 3).getD [])
      let errorMessage := extractErrorMessage output line
      [{ ctype := CEType.syn
         file := dropPfx file "/home/project".toList
         line := some line
         column := some column
         message := errorMessage
         rawError := output
         suggestion := some (generateSuggestion errorMessage output)
         timestamp := now }]
    | none => []
  let tsErrs : List CompilationError :=
    match jsMatch tsRegex output with
    | some caps =>
      let file := (capGet caps 1).getD []
      let line := digsToNat ((capGet caps 2).getD [])
      let column := digsToNat ((capGet caps 3).getD [])
      let errorCode := (capGet caps 4).getD []
      let message := (capGet caps 5).getD []
      [{ ctype := CEType.ts
         file := dropPfx file "/home/project".toList
         line := some line
         column := some column
         message := "TS".toList ++ errorCode ++ ": ".toList ++ message
         rawError := output
         suggestion := some (generateTypeScriptSuggestion errorCode message)
         timestamp := now }]
    | none => []
  let impErrs : List CompilationError :=
    if containsSub output "Cannot find module".toList ||
        containsSub output "Module not found".toList ||
        containsSub output "Failed to resolve import".toList then
      let moduleMatch := jsMatch cannotResolveRegex output
      let fileMatch := jsMatch inFileRegex output
      [{ ctype := CEType.imp
         file :=
           match fileMatch with
           | some caps => dropPfx ((capGet caps 1).getD []) "/home/project".toList
           | none => "unknown".toList
         line := none
         column := none
         message :=
           "Import error: ".toList ++
             (match moduleMatch with
              | some caps => (capGet caps 1).getD []
              | none => "module".toList) ++ " not found".toList
         rawError := output
         suggestion := some "Check that the import path is correct and the module is installed".toList
         timestamp := now }]
    else []
  viteErrs ++ tsErrs ++ impErrs

end ErrorMonitor

/-! ## JSON serialization (`JSON.stringify(v, null, 2)` and `JSON.parse`)

`TestFeedbackParser.formatForMessage` embeds `JSON.stringify(report, null,
2)` between sentinel tags and `parseTestResults` recovers it with
`JSON.parse`.  Both built-ins are modelled here over the `Json` type:
the serializer produces the exact pretty-printed layout (two-space
indentation, each member on its own line, `": "` after keys), the parser
is a recursive-descent JSON reader.  Numerals are integer-only, matching
the `Json.jnum` scope documented above. -/

/-- The left-brace character. -/
def lbrace : Char := Char.ofNat 123

/-- The right-brace character. -/
def rbrace : Char := Char.ofNat 125

/-- `n` spaces of indentation. -/
def spaces (n : Nat) : List Char := List.replicate n ' '

/-- Lower-case hexadecimal digit. -/
def hexDig (n : Nat) : Char :=
  if n < 10 then Char.ofNat (48 + n) else Char.ofNat (87 + n)

/-- `JSON.stringify`'s escaping of one string character: quote, backslash,
and control characters (named escapes for backspace, tab, line feed, form
feed, carriage return; `\u00xx` for the rest below U+0020). -/
def escChar (c : Char) : List Char :=
  if c = '"' then ['\\', '"']
  else if c = '\\' then ['\\', '\\']
  else if c = '\n' then ['\\', 'n']
  else if c = '\r' then ['\\', 'r']
  else if c = '\t' then ['\\', 't']
  else if c = Char.ofNat 8 then ['\\', 'b']
  else if c = Char.ofNat 12 then ['\\', 'f']
  else if c.toNat < 32 then
    ['\\', 'u', '0', '0', hexDig (c.toNat / 16), hexDig (c.toNat % 16)]
  else [c]

/-- Escape a whole string body. -/
def escStr (s : List Char) : List Char :=
  s.foldr (fun c acc => escChar c ++ acc) []

/-- Signed decimal numeral, as `JSON.stringify` prints integral numbers. -/
def intToDigs (n : Int) : List Char :=
  if n < 0 then '-' :: natToDigs (-n).toNat else natToDigs n.toNat

mutual
/-- `JSON.stringify(v, null, 2)` at indentation level `ind`: compound
values put every member on its own line, indented two further spaces, with
the closing bracket back at `ind`. -/
def render (ind : Nat) : Json → List Char
  | Json.jnull => "null".toList
  | Json.jbool true => "true".toList
  | Json.jbool false => "false".toList
  | Json.jnum n => intToDigs n
  | Json.jstr s => '"' :: escStr s ++ ['"']
  | Json.jarr JArr.anil => "[]".toList
  | Json.jarr (JArr.acons h t) =>
    '[' :: '\n' :: renderArr (ind + 2) (JArr.acons h t) ++ '\n' :: spaces ind ++ [']']
  | Json.jobj JObj.onil => [lbrace, rbrace]
  | Json.jobj (JObj.ocons k v t) =>
    lbrace :: '\n' :: renderObj (ind + 2) (JObj.ocons k v t) ++ '\n' :: spaces ind ++ [rbrace]

/-- The comma-separated element lines of a non-empty array. -/
def renderArr (ind : Nat) : JArr → List Char
  | JArr.anil => []
  | JArr.acons h JArr.anil => spaces ind ++ render ind h
  | JArr.acons h (JArr.acons h2 t2) =>
    spaces ind ++ render ind h ++ ',' :: '\n' :: renderArr ind (JArr.acons h2 t2)

/-- The comma-separated member lines of a non-empty object. -/
def renderObj (ind : Nat) : JObj → List Char
  | JObj.onil => []
  | JObj.ocons k v JObj.onil =>
    spaces ind ++ '"' :: escStr k ++ '"' :: ':' :: ' ' :: render ind v
  | JObj.ocons k v (JObj.ocons k2 v2 t2) =>
    spaces ind ++ '"' :: escStr k ++ '"' :: ':' :: ' ' :: render ind v ++
      ',' :: '\n' :: renderObj ind (JObj.ocons k2 v2 t2)
end

/-- Skip JSON whitespace. -/
def skipWs (s : List Char) : List Char := s.dropWhile (fun c => isWsp c)

/-- Hexadecimal digit value. -/
def parseHex (c : Char) : Option Nat :=
  if isDig c then some (c.toNat - 48)
  else if 'a' ≤ c && c ≤ 'f' then some (c.toNat - 87)
  else if 'A' ≤ c && c ≤ 'F' then some (c.toNat - 55)
  else none

/-- Decode a single-character JSON escape. -/
def escDecode (e : Char) : Option Char :=
  if e = '"' then some '"'
  else if e = '\\' then some '\\'
  else if e = '/' then some '/'
  else if e = 'b' then some (Char.ofNat 8)
  else if e = 'f' then some (Char.ofNat 12)
  else if e = 'n' then some '\n'
  else if e = 'r' then some '\r'
  else if e = 't' then some '\t'
  else none

/-- String-body parser: the input starts right after the opening quote;
returns the decoded string and the input after the closing quote.  Raw
control characters are rejected, as `JSON.parse` rejects them. -/
def parseStrAux (s : List Char) : Option (List Char × List Char) :=
  match s with
  | [] => none
  | c :: tl =>
    if c = '"' then some ([], tl)
    else if c = '\\' then
      match tl with
      | [] => none
      | e :: tl2 =>
        if e = 'u' then
          match tl2 with
          | h1 :: h2 :: h3 :: h4 :: tl3 =>
            match parseHex h1, parseHex h2, parseHex h3, parseHex h4 with
            | some a, some b, some c2, some d =>
              match parseStrAux tl3 with
              | some (r, rest) =>
                some (Char.ofNat (((a * 16 + b) * 16 + c2) * 16 + d) :: r, rest)
              | none => none
            | _, _, _, _ => none
          | _ => none
        else
          match escDecode e with
          | some c2 =>
            match parseStrAux tl2 with
            | some (r, rest) => some (c2 :: r, rest)
            | none => none
          | none => none
    else if c.toNat < 32 then none
    else
      match parseStrAux tl with
      | some (r, rest) => some (c :: r, rest)
      | none => none

/-- Integer numeral parser (a minus sign and a digit run; the fractional
and exponent forms are outside the integer-only numeral scope of this
model). -/
def parseNum (s : List Char) : Option (Int × List Char) :=
  match s with
  | [] => none
  | c :: tl =>
    if c = '-' then
      if tl.takeWhile isDig = [] then none
      else some (-(digsToNat (tl.takeWhile isDig) : Int), tl.dropWhile isDig)
    else if isDig c then
      some ((digsToNat (s.takeWhile isDig) : Int), s.dropWhile isDig)
    else none

mutual
/-- `JSON.parse` value parser.  `fuel` bounds the recursion depth; the
top-level entry point supplies more fuel than any input can consume. -/
def parseVal : Nat → List Char → Option (Json × List Char)
  | 0, _ => none
  | fuel + 1, s =>
    let s1 := skipWs s
    if "null".toList.isPrefixOf s1 then some (Json.jnull, s1.drop 4)
    else if "true".toList.isPrefixOf s1 then some (Json.jbool true, s1.drop 4)
    else if "false".toList.isPrefixOf s1 then some (Json.jbool false, s1.drop 5)
    else
      match s1 with
      | [] => none
      | c :: tl =>
        if c = '"' then
          match parseStrAux tl with
          | some (str, rest) => some (Json.jstr str, rest)
          | none => none
        else if c = '[' then
          let s2 := skipWs tl
          match s2 with
          | c2 :: rest2 =>
            if c2 = ']' then some (Json.jarr JArr.anil, rest2)
            else
              match parseArrItems fuel s2 with
              | some (xs, rest) => some (Json.jarr xs, rest)
              | none => none
          | [] => none
        else if c = lbrace then
          let s2 := skipWs tl
          match s2 with
          | c2 :: rest2 =>
            if c2 = rbrace then some (Json.jobj JObj.onil, rest2)
            else
              match parseObjItems fuel s2 with
              | some (fs, rest) => some (Json.jobj fs, rest)
              | none => none
          | [] => none
        else if c = '-' || isDig c then
          match parseNum s1 with
          | some (n, rest) => some (Json.jnum n, rest)
          | none => none
        else none

/-- Elements of a non-empty array, after the opening bracket. -/
def parseArrItems : Nat → List Char → Option (JArr × List Char)
  | 0, _ => none
  | fuel + 1, s =>
    match parseVal fuel s with
    | some (v, rest) =>
      match skipWs rest with
      | c :: rest2 =>
        if c = ',' then
          match parseArrItems fuel rest2 with
          | some (xs, rest3) => some (JArr.acons v xs, rest3)
          | none => none
        else if c = ']' then some (JArr.acons v JArr.anil, rest2)
        else none
      | [] => none
    | none => none

/-- Members of a non-empty object, after the opening brace. -/
def parseObjItems : Nat → List Char → Option (JObj × List Char)
  | 0, _ => none
  | fuel + 1, s =>
    match skipWs s with
    | c :: tl =>
      if c = '"' then
        match parseStrAux tl with
        | some (k, r1) =>
          match skipWs r1 with
          | c2 :: r2 =>
            if c2 = ':' then
              match parseVal fuel r2 with
              | some (v, r3) =>
                match skipWs r3 with
                | c3 :: r4 =>
                  if c3 = ',' then
                    match parseObjItems fuel r4 with
                    | some (fs, r5) => some (JObj.ocons k v fs, r5)
                    | none => none
                  else if c3 = rbrace then some (JObj.ocons k v JObj.onil, r4)
                  else none
                | [] => none
              | none => none
            else none
          | [] => none
        | none => none
      else none
    | [] => none
end

/-- `JSON.parse`: a single value, surrounding whitespace allowed, nothing
after it. -/
def jsonParse (s : List Char) : Option Json :=
  match parseVal (2 * s.length + 2) s with
  | some (v, rest) => if skipWs rest = [] then some v else none
  | none => none

/-! ## The Json image of a `TestReport`

`JSON.stringify` serializes the report object's own properties in
insertion order — the order the interfaces and `createReport`'s object
literal declare — and omits properties whose value is `undefined`. -/

/-- The JSON string of a test status. -/
def statusStr : TStatus → List Char
  | TStatus.passed => "passed".toList
  | TStatus.failed => "failed".toList
  | TStatus.skipped => "skipped".toList
  | TStatus.warning => "warning".toList

/-- A property that `JSON.stringify` drops when the value is `undefined`. -/
def optField (k : List Char) (v : Option Json) (tl : JObj) : JObj :=
  match v with
  | none => tl
  | some j => JObj.ocons k j tl

/-- Json image of a `TestResult`. -/
def encodeResult (r : TestResult) : Json :=
  Json.jobj
    (JObj.ocons "testName".toList (Json.jstr r.testName)
    (JObj.ocons "status".toList (Json.jstr (statusStr r.status))
    (optField "duration".toList (r.duration.map Json.jnum)
    (optField "error".toList (r.error.map Json.jstr)
    (optField "details".toList r.details
    (optField "screenshot".toList (r.screenshot.map Json.jstr) JObj.onil))))))

/-- Json image of a result list. -/
def encodeResults : List TestResult → JArr
  | [] => JArr.anil
  | r :: rs => JArr.acons (encodeResult r) (encodeResults rs)

/-- Json image of a string list. -/
def encodeStrs : List (List Char) → JArr
  | [] => JArr.anil
  | s :: ss => JArr.acons (Json.jstr s) (encodeStrs ss)

/-- Json image of the summary record. -/
def encodeSummary (s : TSummary) : Json :=
  Json.jobj
    (JObj.ocons "total".toList (Json.jnum (Int.ofNat s.total))
    (JObj.ocons "passed".toList (Json.jnum (Int.ofNat s.passed))
    (JObj.ocons "failed".toList (Json.jnum (Int.ofNat s.failed))
    (JObj.ocons "skipped".toList (Json.jnum (Int.ofNat s.skipped)) JObj.onil))))

/-- Json image of a `TestReport`. -/
def encodeReport (r : TestReport) : Json :=
  Json.jobj
    (JObj.ocons "agentName".toList (Json.jstr r.agentName)
    (JObj.ocons "timestamp".toList (Json.jnum r.timestamp)
    (JObj.ocons "duration".toList (Json.jnum r.duration)
    (JObj.ocons "results".toList (Json.jarr (encodeResults r.results))
    (JObj.ocons "summary".toList (encodeSummary r.summary)
    (optField "suggestions".toList
      (r.suggestions.map (fun l => Json.jarr (encodeStrs l)))
    (optField "metadata".toList r.metadata JObj.onil)))))))

namespace TestFeedbackParser

/-- `TEST_RESULT_TAG_OPEN`. -/
def tagOpen : List Char := "<boltTestResult".toList

/-- `TEST_RESULT_TAG_CLOSE`. -/
def tagClose : List Char := "</boltTestResult>".toList

/-- `JSON.stringify(report, null, 2)` on a report's Json image. -/
def stringifyReport (r : TestReport) : List Char := render 0 (encodeReport r)

/-- `TestFeedbackParser.formatForMessage`: the stringified report between
the sentinel tags, the opening tag closed with `>`. -/
def formatForMessage (r : TestReport) : List Char :=
  tagOpen ++ '>' :: '\n' :: stringifyReport r ++ '\n' :: tagClose

/-- `TestFeedbackParser.parseTestResults`: locate the first open and close
tags, slice the text between the first `>` and the last `<` of that window,
and `JSON.parse` it; any failure (including a `JSON.parse` throw, caught in
the source) yields `null`.  Returns the parsed JSON value — the source
casts it to `TestReport` without validation.  JavaScript's `-1` sentinels
for a missing `>` or `<` become index `0` after the `+ 1` and the
`substring` clamp-and-swap, which `Option.getD 0` reproduces. -/
def parseTestResults (message : List Char) : Option Json :=
  match idxOfSub message tagOpen, idxOfSub message tagClose with
  | some startIndex, some endIndex =>
    let xmlContent := jsSubstring message startIndex (endIndex + tagClose.length)
    let contentStart := ((idxOfSub xmlContent ['>']).map (· + 1)).getD 0
    let contentEnd := (lastIdxOf xmlContent '<').getD 0
    jsonParse (jsSubstring xmlContent contentStart contentEnd)
  | _, _ => none

end TestFeedbackParser

namespace C8W

/-- A small report exercising all field kinds: a passing result, a failing
result with an error string, omitted optional fields, and a suggestion
list. -/
def sampleReport : TestReport :=
  { agentName := "Functional Testing".toList
    timestamp := 1700000000000
    duration := 42
    results := [{ testName := "homepage loads".toList
                  status := TStatus.passed
                  duration := some 3
                  error := none
                  details := none
                  screenshot := none },
                { testName := "api".toList
                  status := TStatus.failed
                  duration := none
                  error := some "TypeError: x is undefined".toList
                  details := none
                  screenshot := none }]
    summary := { total := 2, passed := 1, failed := 1, skipped := 0 }
    suggestions := some ["Fix type error".toList]
    metadata := none }

/-- A report whose agent name contains the closing sentinel tag. -/
def badReport : TestReport :=
  { agentName := "</boltTestResult>".toList
    timestamp := 0
    duration := 0
    results := []
    summary := { total := 0, passed := 0, failed := 0, skipped := 0 }
    suggestions := none
    metadata := none }

end C8W

end PWB

namespace PWB

/-! ## Theorems -/

/-- A result's status falls in exactly one of the four buckets, so the four
per-status counts partition the list. -/
theorem count_status_partition (rs : List TestResult) :
    (rs.filter (fun r => r.status == TStatus.passed)).length +
      (rs.filter (fun r => r.status == TStatus.failed)).length +
      (rs.filter (fun r => r.status == TStatus.skipped)).length +
      (rs.filter (fun r => r.status == TStatus.warning)).length = rs.length := by
  induction rs with
  | nil => rfl
  | cons hd tl ih =>
    cases h : hd.status <;>
      simp [List.filter_cons, h] <;> omega

/-- C1 (counterexample): `createReport` over a single `warning`-status result
(as the accessibility agent produces for duplicate H1 headings) yields
`summary = {total := 1, passed := 0, failed := 0, skipped := 0}`, so
`passed + failed + skipped ≠ total`: the claim's final conjunct fails. -/
theorem c1_counterexample :
    ¬ (let r := TestAgent.createReport "A11yTest".toList
        [{ testName := "Heading Structure".toList, status := TStatus.warning,
           duration := none, error := some "Multiple H1 headings found".toList,
           details := none, screenshot := none }] 0 0 none
       r.summary.passed + r.summary.failed + r.summary.skipped = r.summary.total) := by
  decide

/-- C1 (amended): for every report produced by `createReport`,
`summary.total` equals `results.length` and each of `passed`, `failed`,
`skipped` is the exact count of results with the matching status; the three
counts sum to `total` minus the number of `warning`-status results (so they
sum to `total` exactly when no result carries the runtime-only `warning`
status). -/
theorem c1_summary_counts (name : List Char) (rs : List TestResult)
    (dur now : Int) (meta : Option Json) :
    let r := TestAgent.createReport name rs dur now meta
    r.summary.total = rs.length ∧
    r.summary.passed = (rs.filter (fun x => x.status == TStatus.passed)).length ∧
    r.summary.failed = (rs.filter (fun x => x.status == TStatus.failed)).length ∧
    r.summary.skipped = (rs.filter (fun x => x.status == TStatus.skipped)).length ∧
    r.summary.passed + r.summary.failed + r.summary.skipped +
        (rs.filter (fun x => x.status == TStatus.warning)).length = r.summary.total := by
  refine ⟨rfl, rfl, rfl, rfl, ?_⟩
  simpa [TestAgent.createReport] using count_status_partition rs

/-- C9: the compilation-error severity is `critical` exactly when a
build- or syntax-typed error is present, `error` exactly when there is no
such error and more than three errors, `warning` otherwise; and, for a
nonempty summary, the test severity is `success` exactly at failure rate 0,
`warning` exactly at a nonzero failure rate below 30%, and `error` exactly
at failure rate at least 30%. -/
theorem c9_severity_classification :
    (∀ errors : List CompilationError,
      (ErrorFeedbackParser.calculateSeverity errors = ESev.critical ↔
        ∃ e ∈ errors, e.ctype = CEType.build ∨ e.ctype = CEType.syn) ∧
      (ErrorFeedbackParser.calculateSeverity errors = ESev.error ↔
        (¬ ∃ e ∈ errors, e.ctype = CEType.build ∨ e.ctype = CEType.syn) ∧
          3 < errors.length) ∧
      (ErrorFeedbackParser.calculateSeverity errors = ESev.warning ↔
        (¬ ∃ e ∈ errors, e.ctype = CEType.build ∨ e.ctype = CEType.syn) ∧
          errors.length ≤ 3)) ∧
    (∀ s : TSummary, 0 < s.total →
      (TestFeedbackParser.calculateSeverity s = TSev.success ↔
        ((s.failed : ℚ) / (s.total : ℚ) = 0)) ∧
      (TestFeedbackParser.calculateSeverity s = TSev.warning ↔
        (0 < (s.failed : ℚ) / (s.total : ℚ) ∧
          (s.failed : ℚ) / (s.total : ℚ) < 3 / 10)) ∧
      (TestFeedbackParser.calculateSeverity s = TSev.error ↔
        (3 / 10 : ℚ) ≤ (s.failed : ℚ) / (s.total : ℚ))) := by
  constructor
  · intro errors
    have hexists :
        (errors.any (fun e => e.ctype == CEType.build) ||
          errors.any (fun e => e.ctype == CEType.syn)) = true ↔
        ∃ e ∈ errors, e.ctype = CEType.build ∨ e.ctype = CEType.syn := by
      rw [Bool.or_eq_true, List.any_eq_true, List.any_eq_true]
      constructor
      · rintro (⟨e, he, h⟩ | ⟨e, he, h⟩)
        · exact ⟨e, he, Or.inl (by simpa using h)⟩
        · exact ⟨e, he, Or.inr (by simpa using h)⟩
      · rintro ⟨e, he, h | h⟩
        · exact Or.inl ⟨e, he, by simpa using h⟩
        · exact Or.inr ⟨e, he, by simpa using h⟩
    by_cases hex : ∃ e ∈ errors, e.ctype = CEType.build ∨ e.ctype = CEType.syn
    · have hb := hexists.mpr hex
      refine ⟨?_, ?_, ?_⟩ <;>
        simp [ErrorFeedbackParser.calculateSeverity, hb, hex]
    · have hb : (errors.any (fun e => e.ctype == CEType.build) ||
          errors.any (fun e => e.ctype == CEType.syn)) = false := by
        cases hbool : (errors.any (fun e => e.ctype == CEType.build) ||
            errors.any (fun e => e.ctype == CEType.syn)) with
        | false => rfl
        | true => exact absurd (hexists.mp hbool) hex
      by_cases hl : errors.length > 3
      · have hl' : ¬ errors.length ≤ 3 := by omega
        refine ⟨?_, ?_, ?_⟩ <;>
          simp [ErrorFeedbackParser.calculateSeverity, hb, hex, hl, hl']
      · have hl' : errors.length ≤ 3 := by omega
        refine ⟨?_, ?_, ?_⟩ <;>
          simp [ErrorFeedbackParser.calculateSeverity, hb, hex, hl, hl']
  · intro s hs
    have htne : (s.total : ℚ) ≠ 0 := by
      exact_mod_cast Nat.pos_iff_ne_zero.mp hs
    have hsne : ¬ s.total = 0 := Nat.pos_iff_ne_zero.mp hs
    have hnonneg : (0 : ℚ) ≤ (s.failed : ℚ) / (s.total : ℚ) :=
      div_nonneg (by positivity) (by positivity)
    unfold TestFeedbackParser.calculateSeverity
    simp only [hsne, if_false]
    by_cases h0 : (s.failed : ℚ) / (s.total : ℚ) = 0
    · simp [h0]
    · by_cases h3 : (s.failed : ℚ) / (s.total : ℚ) < 3 / 10
      · simp [h0, h3, lt_of_le_of_ne hnonneg (Ne.symm h0)]
      · simp [h0, h3, le_of_not_lt h3]

namespace SubagentManager

theorem insertDesc_ne_nil (x : AgentBeh × ℚ) (l : List (AgentBeh × ℚ)) :
    insertDesc x l ≠ [] := by
  cases l with
  | nil => simp [insertDesc]
  | cons y ys =>
    by_cases h : x.2 ≥ y.2 <;> simp [insertDesc, h]

theorem sortDesc_eq_nil_iff (l : List (AgentBeh × ℚ)) :
    sortDesc l = [] ↔ l = [] := by
  cases l with
  | nil => simp [sortDesc]
  | cons x xs => simp [sortDesc, insertDesc_ne_nil]

theorem firstMax_eq_none_iff (l : List (AgentBeh × ℚ)) :
    firstMax l = none ↔ l = [] := by
  cases l with
  | nil => simp [firstMax]
  | cons x xs =>
    simp only [firstMax]
    cases firstMax xs with
    | none => simp
    | some b =>
      by_cases h : b.2 > x.2 <;> simp [h]

/-- The head of the stable descending sort is the first score-maximal
element in list order. -/
theorem head_sortDesc (l : List (AgentBeh × ℚ)) :
    (sortDesc l).head? = firstMax l := by
  induction l with
  | nil => rfl
  | cons x xs ih =>
    simp only [sortDesc, firstMax]
    cases hs : sortDesc xs with
    | nil =>
      have hxs : xs = [] := (sortDesc_eq_nil_iff xs).mp hs
      have : firstMax xs = none := by simp [hxs, firstMax]
      simp [this, insertDesc]
    | cons y ys =>
      have hy : firstMax xs = some y := by
        rw [← ih, hs]; rfl
      rw [hy]
      by_cases h : x.2 ≥ y.2
      · have h' : ¬ y.2 > x.2 := not_lt.mpr h
        simp [insertDesc, h, h']
      · have h' : y.2 > x.2 := lt_of_not_ge h
        simp [insertDesc, h, h']

/-- `firstMax` really is the earliest maximiser: it is a member, it bounds
every score, and everything before it scores strictly less. -/
theorem firstMax_spec (l : List (AgentBeh × ℚ)) :
    ∀ b : AgentBeh × ℚ, firstMax l = some b →
    b ∈ l ∧ (∀ y ∈ l, y.2 ≤ b.2) ∧
      ∃ pre post, l = pre ++ b :: post ∧ ∀ y ∈ pre, y.2 < b.2 := by
  induction l with
  | nil => intro b hb; simp [firstMax] at hb
  | cons x xs ih =>
    intro b hb
    simp only [firstMax] at hb
    cases hfm : firstMax xs with
    | none =>
      rw [hfm] at hb
      have hxs : xs = [] := (firstMax_eq_none_iff xs).mp hfm
      have hb2 : some x = some b := hb
      cases hb2
      subst hxs
      exact ⟨by simp, by simp, [], [], by simp, by simp⟩
    | some c =>
      rw [hfm] at hb
      have hb2 : (if c.2 > x.2 then some c else some x) = some b := hb
      by_cases hgt : c.2 > x.2
      · rw [if_pos hgt] at hb2
        cases hb2
        obtain ⟨hmem, hbound, pre, post, hsplit, hpre⟩ := ih b hfm
        refine ⟨by simp [hmem], ?_, x :: pre, post, by simp [hsplit], ?_⟩
        · intro y hy
          rcases List.mem_cons.mp hy with rfl | hy'
          · exact le_of_lt hgt
          · exact hbound y hy'
        · intro y hy
          rcases List.mem_cons.mp hy with rfl | hy'
          · exact hgt
          · exact hpre y hy'
      · rw [if_neg hgt] at hb2
        cases hb2
        obtain ⟨hmem, hbound, _, _, _, _⟩ := ih c hfm
        have hcx : c.2 ≤ x.2 := not_lt.mp hgt
        refine ⟨by simp, ?_, [], xs, by simp, by simp⟩
        intro y hy
        rcases List.mem_cons.mp hy with rfl | hy'
        · exact le_rfl
        · exact le_trans (hbound y hy') hcx

/-- The implemented score agrees with the specification's formula. -/
theorem calculateAgentScore_eq_claimScore (st : MState) (ag : AgentBeh)
    (task : SubagentTask) :
    calculateAgentScore st ag task = claimScore st ag task := by
  by_cases hlen :
      (st.completedTasks.filter (fun t => t.agent == ag.name)).length = 0
  · cases hp : task.priority <;>
      by_cases hbusy :
        (st.activeTasks.any (fun p => p.2.agent == ag.name)) = true <;>
      simp [calculateAgentScore, claimScore, hp, hbusy, hlen]
  · have hpos :
        (st.completedTasks.filter (fun t => t.agent == ag.name)).length > 0 :=
      Nat.pos_of_ne_zero hlen
    cases hp : task.priority <;>
      by_cases hbusy :
        (st.activeTasks.any (fun p => p.2.agent == ag.name)) = true <;>
      simp [calculateAgentScore, claimScore, hp, hbusy, hlen, hpos] <;> ring

end SubagentManager

/-- C3: `delegateTask` selects only from registered agents accepted by
`canHandle`; among those, the chosen agent attains the maximal score of the
specification's formula (100 − 20·busy + 20·successFraction + priority
boost), with ties resolved to the earlier agent in registration order; and
with no capable agent, `delegateTask` returns — without throwing — a
`success: false` result carrying the "no suitable agent" error and leaves
the state untouched. -/
theorem c3_scored_dispatch (st : MState) (task : SubagentTask) (now : Int) :
    (∀ ag : AgentBeh,
      SubagentManager.calculateAgentScore st ag task =
        SubagentManager.claimScore st ag task) ∧
    (∀ ag : AgentBeh, SubagentManager.findSuitableAgent st task = some ag →
      ag ∈ SubagentManager.capableAgents st task ∧
      (∀ b ∈ SubagentManager.capableAgents st task,
        SubagentManager.claimScore st b task ≤
          SubagentManager.claimScore st ag task) ∧
      ∃ pre post, SubagentManager.capableAgents st task = pre ++ ag :: post ∧
        ∀ b ∈ pre,
          SubagentManager.claimScore st b task <
            SubagentManager.claimScore st ag task) ∧
    (SubagentManager.capableAgents st task = [] →
      SubagentManager.findSuitableAgent st task = none ∧
      SubagentManager.delegateTask st task now =
        (st,
          { taskId := task.id
            agentName := "SubagentManager".toList
            success := false
            errors := some ["No suitable agent found for this task type".toList]
            timestamp := now })) := by
  have hrw : SubagentManager.findSuitableAgent st task =
      (SubagentManager.firstMax
        ((SubagentManager.capableAgents st task).map
          (fun a => (a, SubagentManager.claimScore st a task)))).map Prod.fst := by
    have h0 : SubagentManager.findSuitableAgent st task =
        match SubagentManager.sortDesc
            ((SubagentManager.capableAgents st task).map
              (fun a => (a, SubagentManager.calculateAgentScore st a task))) with
        | [] => none
        | best :: _ => some best.1 := rfl
    have hmap : (SubagentManager.capableAgents st task).map
          (fun a => (a, SubagentManager.calculateAgentScore st a task)) =
        (SubagentManager.capableAgents st task).map
          (fun a => (a, SubagentManager.claimScore st a task)) := by
      apply List.map_congr_left
      intro a _
      rw [SubagentManager.calculateAgentScore_eq_claimScore]
    rw [h0, hmap, ← SubagentManager.head_sortDesc]
    cases SubagentManager.sortDesc
        ((SubagentManager.capableAgents st task).map
          (fun a => (a, SubagentManager.claimScore st a task))) with
    | nil => rfl
    | cons b bs => rfl
  refine ⟨fun ag => SubagentManager.calculateAgentScore_eq_claimScore st ag task,
    ?_, ?_⟩
  · intro ag hag
    rw [hrw] at hag
    cases hfm : SubagentManager.firstMax
        ((SubagentManager.capableAgents st task).map
          (fun a => (a, SubagentManager.claimScore st a task))) with
    | none => rw [hfm] at hag; cases hag
    | some b =>
      rw [hfm] at hag
      have hb1 : b.1 = ag := by simpa using hag
      obtain ⟨hmem, hbound, pre, post, hsplit, hpre⟩ :=
        SubagentManager.firstMax_spec _ b hfm
      obtain ⟨ag', hag', rfl⟩ := List.mem_map.mp hmem
      obtain rfl : ag' = ag := hb1
      refine ⟨hag', ?_, ?_⟩
      · intro c hc
        have := hbound (c, SubagentManager.claimScore st c task)
          (List.mem_map.mpr ⟨c, hc, rfl⟩)
        simpa using this
      · refine ⟨pre.map Prod.fst, post.map Prod.fst, ?_, ?_⟩
        · have h1 := congrArg (List.map Prod.fst) hsplit
          rw [List.map_map] at h1
          rw [show (Prod.fst ∘ fun a => (a, SubagentManager.claimScore st a task))
              = id from rfl, List.map_id, List.map_append, List.map_cons] at h1
          exact h1
        · intro c hc
          obtain ⟨p, hp, rfl⟩ := List.mem_map.mp hc
          have h2 := hpre p hp
          -- every element of the scored list pairs an agent with its score,
          -- so `p.2` is exactly the claim score of `p.1`
          have hshape : ∀ q ∈ pre ++
              (ag', SubagentManager.claimScore st ag' task) :: post,
              q.2 = SubagentManager.claimScore st q.1 task := by
            intro q hq
            rw [← hsplit] at hq
            obtain ⟨a, _, rfl⟩ := List.mem_map.mp hq
            rfl
          have hpshape := hshape p (by simp [hp])
          rw [← hpshape]
          exact h2
  · intro hcap
    have hfind : SubagentManager.findSuitableAgent st task = none := by
      rw [hrw, hcap]
      rfl
    refine ⟨hfind, ?_⟩
    unfold SubagentManager.delegateTask
    rw [hfind]

/-- C3 (witness): with two equal-scoring capable agents the earlier
registrant wins; with a lone agent that declines the task, delegation
reports failure with no exception. -/
theorem c3_scored_dispatch_witness :
    (SubagentManager.findSuitableAgent C3W.stW C3W.taskW = some C3W.agentA ∧
      ∀ b ∈ SubagentManager.capableAgents C3W.stW C3W.taskW,
        SubagentManager.claimScore C3W.stW b C3W.taskW ≤
          SubagentManager.claimScore C3W.stW C3W.agentA C3W.taskW) ∧
    (SubagentManager.capableAgents C3W.stN C3W.taskW = [] ∧
      (SubagentManager.delegateTask C3W.stN C3W.taskW 0).2.success = false) := by
  have hfind : SubagentManager.findSuitableAgent C3W.stW C3W.taskW =
      some C3W.agentA := by
    simp only [SubagentManager.findSuitableAgent, SubagentManager.capableAgents,
      SubagentManager.calculateAgentScore, SubagentManager.sortDesc,
      SubagentManager.insertDesc, C3W.stW, C3W.taskW, C3W.agentA, C3W.agentB]
    norm_num
  have h1 := (c3_scored_dispatch C3W.stW C3W.taskW 0).2.1 C3W.agentA hfind
  have hcap : SubagentManager.capableAgents C3W.stN C3W.taskW = [] := by rfl
  have h2 := (c3_scored_dispatch C3W.stN C3W.taskW 0).2.2 hcap
  exact ⟨⟨hfind, h1.2.1⟩, ⟨hcap, by rw [h2.2]⟩⟩

/-! ### Association-map lemmas shared by the action-runner proofs -/

theorem getKey_setKey_self {V : Type} (m : List (List Char × V))
    (k : List Char) (v : V) : getKey (setKey m k v) k = some v := by
  induction m with
  | nil => simp [setKey, getKey]
  | cons hd tl ih =>
    by_cases h : hd.1 = k
    · simp [setKey, getKey, h]
    · simp [setKey, getKey, h, ih]

theorem getKey_setKey_ne {V : Type} (m : List (List Char × V))
    (k k' : List Char) (v : V) (h : ¬ k' = k) :
    getKey (setKey m k v) k' = getKey m k' := by
  induction m with
  | nil =>
    simp only [setKey, getKey]
    rw [if_neg (fun hc => h hc.symm)]
  | cons hd tl ih =>
    obtain ⟨k0, v0⟩ := hd
    simp only [setKey]
    by_cases hh : k0 = k
    · rw [if_pos hh]
      simp only [getKey]
      rw [if_neg (fun hc => h hc.symm), if_neg (fun hc => h (by rw [← hc, hh]))]
    · rw [if_neg hh]
      simp only [getKey]
      by_cases hk0 : k0 = k'
      · rw [if_pos hk0, if_pos hk0]
      · rw [if_neg hk0, if_neg hk0, ih]

/-- C4: registering the same `actionId` twice is a no-op: the second
`addAction` returns the state of the first unchanged, so the key set and the
stored action's status, `executed` flag and content are all untouched. -/
theorem c4_addAction_noop (st : RState) (id : List Char) (d d' : ActionData) :
    ActionRunner.addAction (ActionRunner.addAction st id d) id d' =
      ActionRunner.addAction st id d := by
  cases h : getKey st.actions id with
  | some a =>
    simp [ActionRunner.addAction, h]
  | none =>
    simp [ActionRunner.addAction, h, getKey_setKey_self]

/-- C10: `runAction` on an actionId never registered throws the
`unreachable` error (`Action <id> not found`) and hands back the state
untouched — nothing is created, updated, or appended to the chain. -/
theorem c10_runAction_unknown_id (env : REnv) (st : RState) (id : List Char)
    (d : ActionData) (s : Bool) (h : getKey st.actions id = none) :
    ActionRunner.runAction env st id d s =
      (Except.error ("Action ".toList ++ id ++ " not found".toList), st) := by
  simp [ActionRunner.runAction, h]

/-- C10 (witness): running an unknown id on a fresh runner throws and
leaves the empty state empty. -/
theorem c10_runAction_unknown_id_witness :
    getKey (ActionRunner.initState).actions "zz".toList = none ∧
      ActionRunner.runAction RW.envW ActionRunner.initState "zz".toList
        RW.shellData false =
      (Except.error ("Action ".toList ++ "zz".toList ++ " not found".toList),
        ActionRunner.initState) :=
  ⟨rfl, c10_runAction_unknown_id RW.envW ActionRunner.initState "zz".toList
    RW.shellData false rfl⟩

/-- C6: a streaming `runAction` on a registered non-`file` action skips
everything: the returned state is the input state, so no status transition
happens and the `executed` flag keeps its value (`false` stays `false`). -/
theorem c6_streaming_skips_nonfile (env : REnv) (st : RState) (id : List Char)
    (d' : ActionData) (a : ActionState)
    (hlook : getKey st.actions id = some a)
    (htype : ¬ a.data.atype = AType.file) :
    ActionRunner.runAction env st id d' true = (Except.ok (), st) := by
  have hbeq : (a.data.atype == AType.file) = false := by
    simpa using htype
  by_cases hex : a.executed = true
  · simp [ActionRunner.runAction, hlook, hex]
  · simp [ActionRunner.runAction, hlook, hex, hbeq]

/-- C6 (witness): a streaming call on the registered pending shell action
returns with the state unchanged. -/
theorem c6_streaming_skips_nonfile_witness :
    (getKey RW.stOne.actions "a1".toList).map (fun a => a.data.atype) =
        some AType.shell ∧
      ActionRunner.runAction RW.envW RW.stOne "a1".toList RW.shellData true =
        (Except.ok (), RW.stOne) :=
  ⟨rfl,
    c6_streaming_skips_nonfile RW.envW RW.stOne "a1".toList RW.shellData
      { data := RW.shellData, status := AStatus.pending, executed := false,
        aborted := false, error := none }
      rfl (by decide)⟩

/-- C5 (counterexample): the supabase branch's private catch converts the
throw into `failed` without consulting the abort signal.  An aborted
migration action whose execution throws (missing `filePath`) ends with
status `failed`, contradicting "the final status is 'aborted' and never
'failed'". -/
theorem c5_counterexample :
    (getKey RW.stAborted.actions "sb".toList).map (fun a => a.aborted) =
        some true ∧
      ActionRunner.execOutcome RW.envW "sb".toList RW.supaNoPath =
        Except.error (JsErr.plainError "Migration requires a filePath".toList) ∧
      ActionRunner.statusOf
        (ActionRunner.runAction RW.envW RW.stAborted "sb".toList
          RW.supaNoPath false).2 "sb".toList = some AStatus.failed := by
  refine ⟨rfl, rfl, ?_⟩
  decide

/-- C5 (amended): for every registered, not-yet-executed action whose
(merged) type is not `supabase`, if the action has been aborted — before
execution or while its operation is in flight — and its execution throws,
the final status is never `failed`; when the abort arrives during execution
(after the `running` transition) the final status is exactly `aborted`.
(`start` actions settle through their detached promise, hence the
`resolveStart` on that branch.) -/
theorem c5_abort_never_failed (env : REnv) (st : RState) (id : List Char)
    (d : ActionData) (a : ActionState)
    (hlook : getKey st.actions id = some a)
    (hexec : a.executed = false)
    (htype : ¬ d.atype = AType.supabase)
    (hthrow : ∃ e, ActionRunner.execOutcome env id d = Except.error e)
    (habort : a.aborted = true ∨ env.abortDuring id = true) :
    ActionRunner.statusOf
        (if d.atype = AType.start then
          ActionRunner.resolveStart env
            (ActionRunner.runAction env st id d false).2 id
        else (ActionRunner.runAction env st id d false).2) id ≠
      some AStatus.failed ∧
    (env.abortDuring id = true →
      ActionRunner.statusOf
          (if d.atype = AType.start then
            ActionRunner.resolveStart env
              (ActionRunner.runAction env st id d false).2 id
          else (ActionRunner.runAction env st id d false).2) id =
        some AStatus.aborted) := by
  obtain ⟨e, he⟩ := hthrow
  have hrun : (ActionRunner.runAction env st id d false).2 =
      (ActionRunner.executeAction env
        ({ st with
            actions :=
              setKey st.actions id ({ a with data := d, executed := true }) })
        id false).1 := by
    simp [ActionRunner.runAction, hlook, hexec]
  cases hty : d.atype with
  | file =>
    simp [ActionRunner.execOutcome, hty, ActionRunner.runFileAction] at he
  | validate =>
    simp [ActionRunner.execOutcome, hty] at he
  | feedback =>
    simp [ActionRunner.execOutcome, hty] at he
  | supabase => exact absurd hty htype
  | shell =>
    have hsh : ActionRunner.runShellAction env d = Except.error e := by
      simpa [ActionRunner.execOutcome, hty] using he
    by_cases hab : env.abortDuring id = true
    · constructor <;>
        simp [hrun, ActionRunner.executeAction, getKey_setKey_self,
          ActionRunner.setStatus, ActionRunner.abortAction,
          ActionRunner.catchBranch, ActionRunner.setFailed,
          ActionRunner.statusOf, hsh, hab, hty]
    · have haborted : a.aborted = true := habort.resolve_right hab
      constructor
      · simp [hrun, ActionRunner.executeAction, getKey_setKey_self,
          ActionRunner.setStatus, ActionRunner.abortAction,
          ActionRunner.catchBranch, ActionRunner.setFailed,
          ActionRunner.statusOf, hsh, hab, haborted, hty]
      · intro hcontra
        exact absurd hcontra hab
  | test =>
    have hts : ActionRunner.runTestOutcome env id = Except.error e := by
      simpa [ActionRunner.execOutcome, hty] using he
    by_cases hab : env.abortDuring id = true
    · constructor <;>
        simp [hrun, ActionRunner.executeAction, getKey_setKey_self,
          ActionRunner.setStatus, ActionRunner.abortAction,
          ActionRunner.catchBranch, ActionRunner.setFailed,
          ActionRunner.statusOf, hts, hab, hty]
    · have haborted : a.aborted = true := habort.resolve_right hab
      constructor
      · simp [hrun, ActionRunner.executeAction, getKey_setKey_self,
          ActionRunner.setStatus, ActionRunner.abortAction,
          ActionRunner.catchBranch, ActionRunner.setFailed,
          ActionRunner.statusOf, hts, hab, haborted, hty]
      · intro hcontra
        exact absurd hcontra hab
  | build =>
    have hbd : ActionRunner.runBuildAction env = Except.error e := by
      cases hrb : ActionRunner.runBuildAction env with
      | ok out => simp [ActionRunner.execOutcome, hty, hrb] at he
      | error e' =>
        simp [ActionRunner.execOutcome, hty, hrb] at he
        rw [he]
    by_cases hab : env.abortDuring id = true
    · constructor <;>
        simp [hrun, ActionRunner.executeAction, getKey_setKey_self,
          ActionRunner.setStatus, ActionRunner.abortAction,
          ActionRunner.catchBranch, ActionRunner.setFailed,
          ActionRunner.statusOf, hbd, hab, hty]
    · have haborted : a.aborted = true := habort.resolve_right hab
      constructor
      · simp [hrun, ActionRunner.executeAction, getKey_setKey_self,
          ActionRunner.setStatus, ActionRunner.abortAction,
          ActionRunner.catchBranch, ActionRunner.setFailed,
          ActionRunner.statusOf, hbd, hab, haborted, hty]
      · intro hcontra
        exact absurd hcontra hab
  | start =>
    have hst : ActionRunner.runStartOutcome env d = Except.error e := by
      simpa [ActionRunner.execOutcome, hty] using he
    by_cases hab : env.abortDuring id = true
    · constructor <;>
        simp [hrun, ActionRunner.executeAction, getKey_setKey_self,
          ActionRunner.setStatus, ActionRunner.abortAction,
          ActionRunner.resolveStart, ActionRunner.setFailed,
          ActionRunner.statusOf, hst, hab, hty]
    · have haborted : a.aborted = true := habort.resolve_right hab
      constructor
      · simp [hrun, ActionRunner.executeAction, getKey_setKey_self,
          ActionRunner.setStatus, ActionRunner.abortAction,
          ActionRunner.resolveStart, ActionRunner.setFailed,
          ActionRunner.statusOf, hst, hab, haborted, hty]
      · intro hcontra
        exact absurd hcontra hab

/-- C5 (witness): a shell action aborted while its failing command runs
ends `aborted`, not `failed`. -/
theorem c5_abort_never_failed_witness :
    getKey RW.stShell2.actions "sh".toList ≠ none ∧
      ActionRunner.statusOf
        (ActionRunner.runAction RW.envAbortFail RW.stShell2 "sh".toList
          RW.shellData false).2 "sh".toList = some AStatus.aborted := by
  have h := c5_abort_never_failed RW.envAbortFail RW.stShell2 "sh".toList
    RW.shellData
    { data := RW.shellData, status := AStatus.pending, executed := false,
      aborted := false, error := none }
    rfl rfl (by decide)
    ⟨JsErr.cmdError "Failed To Execute Shell Command".toList "boom".toList,
      rfl⟩
    (Or.inr (by decide))
  refine ⟨by decide, ?_⟩
  have h2 := h.2 (by decide)
  simpa using h2

/-! ### Framing lemmas for the execution-chain theorems -/

theorem autoTestId_ne (id : List Char) : ¬ id = ActionRunner.autoTestId id := by
  intro h
  have hlen := congrArg List.length h
  simp [ActionRunner.autoTestId] at hlen

namespace ActionRunner

theorem setStatus_actions_ne (st : RState) (id x : List Char) (s : AStatus)
    (hx : ¬ x = id) :
    getKey (setStatus st id s).actions x = getKey st.actions x := by
  cases h : getKey st.actions id <;>
    simp [setStatus, h, getKey_setKey_ne _ _ _ _ hx]

theorem setFailed_actions_ne (st : RState) (id x : List Char) (m : List Char)
    (hx : ¬ x = id) :
    getKey (setFailed st id m).actions x = getKey st.actions x := by
  cases h : getKey st.actions id <;>
    simp [setFailed, h, getKey_setKey_ne _ _ _ _ hx]

theorem abortAction_actions_ne (st : RState) (id x : List Char)
    (hx : ¬ x = id) :
    getKey (abortAction st id).actions x = getKey st.actions x := by
  cases h : getKey st.actions id <;>
    simp [abortAction, h, getKey_setKey_ne _ _ _ _ hx]

theorem finalize_actions_ne (st : RState) (id x : List Char) (b : Bool)
    (hx : ¬ x = id) :
    getKey (finalize st id b).actions x = getKey st.actions x := by
  cases h : getKey st.actions id <;>
    simp [finalize, h, getKey_setKey_ne _ _ _ _ hx]

theorem catchBranch_actions_ne (st : RState) (id x : List Char) (e : JsErr)
    (hx : ¬ x = id) :
    getKey (catchBranch st id e).1.actions x = getKey st.actions x := by
  cases h : getKey st.actions id with
  | none => simp [catchBranch, h]
  | some a =>
    by_cases hab : a.aborted <;>
      cases e <;>
      simp [catchBranch, h, hab, setFailed_actions_ne _ _ _ _ hx]

/-- `#executeAction` only ever touches its own action and, for a successful
build, the derived auto-test entry. -/
theorem executeAction_actions_ne (env : REnv) (st : RState) (id x : List Char)
    (b : Bool) (hx : ¬ x = id) (hauto : ¬ x = autoTestId id) :
    getKey (executeAction env st id b).1.actions x = getKey st.actions x := by
  cases h : getKey st.actions id with
  | none => simp [executeAction, h]
  | some a0 =>
    have hset : ∀ (s : RState) (y : AStatus),
        getKey (setStatus s id y).actions x = getKey s.actions x :=
      fun s y => setStatus_actions_ne s id x y hx
    have hfail : ∀ (s : RState) (m : List Char),
        getKey (setFailed s id m).actions x = getKey s.actions x :=
      fun s m => setFailed_actions_ne s id x m hx
    have habortF : ∀ (s : RState),
        getKey (abortAction s id).actions x = getKey s.actions x :=
      fun s => abortAction_actions_ne s id x hx
    have hfin : ∀ (s : RState) (b' : Bool),
        getKey (finalize s id b').actions x = getKey s.actions x :=
      fun s b' => finalize_actions_ne s id x b' hx
    have hcatch : ∀ (s : RState) (e : JsErr),
        getKey (catchBranch s id e).1.actions x = getKey s.actions x :=
      fun s e => catchBranch_actions_ne s id x e hx
    have hautoT : ∀ (s : RState),
        getKey (runAutomatedTests env s id).actions x = getKey s.actions x :=
      fun s => by
        simp [runAutomatedTests, getKey_setKey_ne _ _ _ _ hauto]
    cases hty : a0.data.atype <;>
      by_cases habd : env.abortDuring id = true <;>
      simp only [executeAction, h, hty, habd, if_true, if_false] <;>
      (repeat' split) <;>
      simp [hset, hfail, habortF, hfin, hcatch, hautoT]

theorem setStatus_scheduled (st : RState) (id : List Char) (s : AStatus) :
    (setStatus st id s).scheduled = st.scheduled := by
  cases h : getKey st.actions id <;> simp [setStatus, h]

theorem setFailed_scheduled (st : RState) (id m : List Char) :
    (setFailed st id m).scheduled = st.scheduled := by
  cases h : getKey st.actions id <;> simp [setFailed, h]

theorem abortAction_scheduled (st : RState) (id : List Char) :
    (abortAction st id).scheduled = st.scheduled := by
  cases h : getKey st.actions id <;> simp [abortAction, h]

theorem finalize_scheduled (st : RState) (id : List Char) (b : Bool) :
    (finalize st id b).scheduled = st.scheduled := by
  cases h : getKey st.actions id <;> simp [finalize, h]

theorem catchBranch_scheduled (st : RState) (id : List Char) (e : JsErr) :
    (catchBranch st id e).1.scheduled = st.scheduled := by
  cases h : getKey st.actions id with
  | none => simp [catchBranch, h]
  | some a =>
    by_cases hab : a.aborted <;> cases e <;>
      simp [catchBranch, h, hab, setFailed_scheduled]

theorem executeAction_scheduled (env : REnv) (st : RState) (id : List Char)
    (b : Bool) : (executeAction env st id b).1.scheduled = st.scheduled := by
  cases h : getKey st.actions id with
  | none => simp [executeAction, h]
  | some a0 =>
    cases hty : a0.data.atype <;>
      by_cases habd : env.abortDuring id = true <;>
      simp only [executeAction, h, hty, habd, if_true, if_false] <;>
      (repeat' split) <;>
      simp [setStatus_scheduled, setFailed_scheduled, abortAction_scheduled,
        finalize_scheduled, catchBranch_scheduled, runAutomatedTests]

theorem runAction_scheduled (env : REnv) (st : RState) (id : List Char)
    (d : ActionData) (b : Bool) :
    (runAction env st id d b).2.scheduled = st.scheduled := by
  cases h : getKey st.actions id with
  | none => simp [runAction, h]
  | some a =>
    by_cases hex : a.executed = true
    · simp [runAction, h, hex]
    · by_cases hstr : (b && !(a.data.atype == AType.file)) = true
      · simp [runAction, h, hex, hstr]
      · simp [runAction, h, hex, hstr, executeAction_scheduled]

theorem runAction_actions_ne (env : REnv) (st : RState) (id : List Char)
    (d : ActionData) (b : Bool) (x : List Char)
    (hx : ¬ x = id) (hauto : ¬ x = autoTestId id) :
    getKey (runAction env st id d b).2.actions x = getKey st.actions x := by
  cases h : getKey st.actions id with
  | none => simp [runAction, h]
  | some a =>
    by_cases hex : a.executed = true
    · simp [runAction, h, hex]
    · by_cases hstr : (b && !(a.data.atype == AType.file)) = true
      · simp [runAction, h, hex, hstr]
      · simp [runAction, h, hex, hstr,
          executeAction_actions_ne env _ id x b hx hauto,
          getKey_setKey_ne _ _ _ _ hx]

/-- A step enqueued on a drained chain leaves the chain drained again. -/
theorem step_scheduled (env : REnv) (st : RState) (p : List Char × ActionData) :
    (step env st p).scheduled = [] := by
  simp only [step]
  rw [runAction_scheduled]
  simp [drainScheduled, setStatus_scheduled,
    List.foldl_hom (fun s : RState => s.scheduled)]

/-- A step on a fresh id does not touch any other action (nor any foreign
auto-test entry). -/
theorem step_actions_ne (env : REnv) (st : RState) (p : List Char × ActionData)
    (x : List Char) (hsch : st.scheduled = [])
    (hx : ¬ x = p.1) (hauto : ¬ x = autoTestId p.1) :
    getKey (step env st p).actions x = getKey st.actions x := by
  simp only [step]
  rw [runAction_actions_ne _ _ _ _ _ _ hx hauto]
  cases h : getKey st.actions p.1 with
  | some a =>
    simp [addAction, h, drainScheduled, hsch]
  | none =>
    simp [addAction, h, drainScheduled, hsch, setStatus_actions_ne _ _ _ _ hx,
      getKey_setKey_ne _ _ _ _ hx]

/-- Effect of one fresh enqueue step on its own action: a non-`start`
action ends `complete` or `failed` by its own execution outcome (detached
promises untouched); a `start` action is left `running` with its promise
recorded, stored with the merged data and a clear abort flag. -/
theorem step_fresh (env : REnv) (st : RState) (id : List Char) (d : ActionData)
    (hfresh : getKey st.actions id = none) (hsch : st.scheduled = [])
    (hab : env.abortDuring id = false) :
    (¬ d.atype = AType.start →
      statusOf (step env st (id, d)) id =
        some (match execOutcome env id d with
              | Except.ok _ => AStatus.complete
              | Except.error _ => AStatus.failed) ∧
      (step env st (id, d)).detached = st.detached) ∧
    (d.atype = AType.start →
      statusOf (step env st (id, d)) id = some AStatus.running ∧
      (step env st (id, d)).detached = st.detached ++ [id] ∧
      getKey (step env st (id, d)).actions id =
        some { data := d, status := AStatus.running, executed := true,
               aborted := false, error := none }) := by
  have hgk : ∀ (m : List (List Char × ActionState)) (v : ActionState),
      getKey (setKey m (autoTestId id) v) id = getKey m id :=
    fun m v => getKey_setKey_ne m (autoTestId id) id v (autoTestId_ne id)
  constructor
  · intro hns
    cases hty : d.atype with
    | start => exact absurd hty hns
    | file =>
      constructor <;>
        simp [step, addAction, hfresh, hsch, drainScheduled, setStatus,
          getKey_setKey_self, runAction, executeAction, hty, hab,
          runFileAction, finalize, statusOf, execOutcome]
    | validate =>
      constructor <;>
        simp [step, addAction, hfresh, hsch, drainScheduled, setStatus,
          getKey_setKey_self, runAction, executeAction, hty, hab,
          finalize, statusOf, execOutcome]
    | feedback =>
      constructor <;>
        simp [step, addAction, hfresh, hsch, drainScheduled, setStatus,
          getKey_setKey_self, runAction, executeAction, hty, hab,
          finalize, statusOf, execOutcome]
    | shell =>
      cases hout : runShellAction env d with
      | ok u =>
        constructor <;>
          simp [step, addAction, hfresh, hsch, drainScheduled, setStatus,
            getKey_setKey_self, runAction, executeAction, hty, hab, hout,
            finalize, statusOf, execOutcome]
      | error e =>
        constructor <;> cases e <;>
          simp [step, addAction, hfresh, hsch, drainScheduled, setStatus,
            getKey_setKey_self, runAction, executeAction, hty, hab, hout,
            catchBranch, setFailed, statusOf, execOutcome]
    | supabase =>
      cases hout : handleSupabaseAction env d with
      | ok u =>
        constructor <;>
          simp [step, addAction, hfresh, hsch, drainScheduled, setStatus,
            getKey_setKey_self, runAction, executeAction, hty, hab, hout,
            finalize, statusOf, execOutcome]
      | error e =>
        constructor <;> cases e <;>
          simp [step, addAction, hfresh, hsch, drainScheduled, setStatus,
            getKey_setKey_self, runAction, executeAction, hty, hab, hout,
            setFailed, statusOf, execOutcome]
    | test =>
      cases hout : runTestOutcome env id with
      | ok u =>
        constructor <;>
          simp [step, addAction, hfresh, hsch, drainScheduled, setStatus,
            getKey_setKey_self, runAction, executeAction, hty, hab, hout,
            finalize, statusOf, execOutcome]
      | error e =>
        constructor <;> cases e <;>
          simp [step, addAction, hfresh, hsch, drainScheduled, setStatus,
            getKey_setKey_self, runAction, executeAction, hty, hab, hout,
            catchBranch, setFailed, statusOf, execOutcome]
    | build =>
      by_cases hbe : env.buildExitCode = 0
      · have hout : runBuildAction env =
            Except.ok
              ((match ["dist".toList, "build".toList, "out".toList,
                  "output".toList, ".next".toList, "public".toList].find?
                  (fun dir => env.existingDirs.contains dir) with
                | some dir => env.workdir ++ "/".toList ++ dir
                | none => env.workdir ++ "/".toList ++ "dist".toList),
                env.buildExitCode) := by
          simp [runBuildAction, hbe]
        constructor <;>
          simp [step, addAction, hfresh, hsch, drainScheduled, setStatus,
            getKey_setKey_self, runAction, executeAction, hty, hab, hout, hbe,
            runAutomatedTests, hgk, finalize, statusOf, execOutcome]
      · have hout : runBuildAction env =
            Except.error (JsErr.cmdError "Build Failed".toList env.buildOutText) := by
          simp [runBuildAction, hbe]
        constructor <;>
          simp [step, addAction, hfresh, hsch, drainScheduled, setStatus,
            getKey_setKey_self, runAction, executeAction, hty, hab, hout,
            catchBranch, setFailed, statusOf, execOutcome, JsErr.cmdError.injEq]
  · intro hty
    refine ⟨?_, ?_, ?_⟩ <;>
      simp [step, addAction, hfresh, hsch, drainScheduled, setStatus,
        getKey_setKey_self, runAction, executeAction, hty, hab,
        statusOf]

theorem setStatus_detached (st : RState) (id : List Char) (s : AStatus) :
    (setStatus st id s).detached = st.detached := by
  cases h : getKey st.actions id <;> simp [setStatus, h]

theorem setFailed_detached (st : RState) (id m : List Char) :
    (setFailed st id m).detached = st.detached := by
  cases h : getKey st.actions id <;> simp [setFailed, h]

theorem abortAction_detached (st : RState) (id : List Char) :
    (abortAction st id).detached = st.detached := by
  cases h : getKey st.actions id <;> simp [abortAction, h]

theorem finalize_detached (st : RState) (id : List Char) (b : Bool) :
    (finalize st id b).detached = st.detached := by
  cases h : getKey st.actions id <;> simp [finalize, h]

theorem catchBranch_detached (st : RState) (id : List Char) (e : JsErr) :
    (catchBranch st id e).1.detached = st.detached := by
  cases h : getKey st.actions id with
  | none => simp [catchBranch, h]
  | some a =>
    by_cases hab : a.aborted <;> cases e <;>
      simp [catchBranch, h, hab, setFailed_detached]

/-- Dispatch extends `detached` by the action's id exactly when the stored
action is a `start` (independently of aborts and outcomes). -/
theorem executeAction_detached (env : REnv) (st : RState) (id : List Char)
    (b : Bool) (a0 : ActionState) (h : getKey st.actions id = some a0) :
    (executeAction env st id b).1.detached =
      st.detached ++ (if a0.data.atype = AType.start then [id] else []) := by
  cases hty : a0.data.atype <;>
    by_cases habd : env.abortDuring id = true <;>
    simp only [executeAction, h, hty, habd, if_true, if_false] <;>
    (repeat' split) <;>
    simp_all [setStatus_detached, setFailed_detached, abortAction_detached,
      finalize_detached, catchBranch_detached, runAutomatedTests,
      setStatus]

/-- The detached list after a fresh step: extended by the action's id
exactly when it is a `start` action (independently of aborts and
outcomes). -/
theorem step_fresh_detached (env : REnv) (st : RState) (id : List Char)
    (d : ActionData) (hfresh : getKey st.actions id = none)
    (hsch : st.scheduled = []) :
    (step env st (id, d)).detached =
      st.detached ++ (if d.atype = AType.start then [id] else []) := by
  have hstep : step env st (id, d) =
      (executeAction env
        ({ st with
            actions :=
              setKey
                (setKey
                  (setKey st.actions id
                    ({ data := d, status := AStatus.pending, executed := false,
                       aborted := false, error := none }))
                  id
                  ({ data := d, status := AStatus.running, executed := false,
                     aborted := false, error := none }))
                id
                ({ data := d, status := AStatus.running, executed := true,
                   aborted := false, error := none })
            scheduled := [] })
        id false).1 := by
    simp [step, addAction, hfresh, hsch, drainScheduled, setStatus,
      getKey_setKey_self, runAction]
  rw [hstep, executeAction_detached env _ id false
      ({ data := d, status := AStatus.running, executed := true,
         aborted := false, error := none })
      (by simp [getKey_setKey_self])]

theorem resolveStart_actions_ne (env : REnv) (st : RState) (id x : List Char)
    (hx : ¬ x = id) :
    getKey (resolveStart env st id).actions x = getKey st.actions x := by
  simp only [resolveStart]
  by_cases habd : env.abortDuring id = true <;>
    simp only [habd, if_true, if_false] <;>
    (repeat' split) <;>
    simp [setStatus_actions_ne _ _ _ _ hx, setFailed_actions_ne _ _ _ _ hx,
      abortAction_actions_ne _ _ _ hx]

/-- Resolving a detached `start` whose action sits `running` and unaborted
settles it by its own dev-server outcome. -/
theorem resolveStart_own (env : REnv) (st : RState) (id : List Char)
    (d : ActionData) (hab : env.abortDuring id = false)
    (hentry : getKey st.actions id =
      some { data := d, status := AStatus.running, executed := true,
             aborted := false, error := none }) :
    statusOf (resolveStart env st id) id =
      some (match runStartOutcome env d with
            | Except.ok _ => AStatus.complete
            | Except.error _ => AStatus.failed) := by
  cases hout : runStartOutcome env d with
  | ok u =>
    simp [resolveStart, hab, hentry, hout, setStatus, statusOf,
      getKey_setKey_self]
  | error e =>
    simp [resolveStart, hab, hentry, hout, setFailed, statusOf,
      getKey_setKey_self]

theorem resolveAll_actions_ne (env : REnv) :
    ∀ (ids : List (List Char)) (st : RState) (x : List Char),
      (∀ y ∈ ids, ¬ x = y) →
      getKey (ids.foldl (resolveStart env) st).actions x = getKey st.actions x := by
  intro ids
  induction ids with
  | nil => intro st x _; rfl
  | cons y ys ih =>
    intro st x hne
    rw [List.foldl_cons, ih _ _ (fun z hz => hne z (List.mem_cons_of_mem y hz)),
      resolveStart_actions_ne env st y x (hne y (List.mem_cons_self y ys))]

theorem resolveAll_status (env : REnv) :
    ∀ (ids : List (List Char)) (st : RState) (x : List Char) (d : ActionData),
      ids.Nodup → x ∈ ids → env.abortDuring x = false →
      getKey st.actions x =
        some { data := d, status := AStatus.running, executed := true,
               aborted := false, error := none } →
      statusOf (ids.foldl (resolveStart env) st) x =
        some (match runStartOutcome env d with
              | Except.ok _ => AStatus.complete
              | Except.error _ => AStatus.failed) := by
  intro ids
  induction ids with
  | nil => intro st x d _ hx; exact absurd hx (List.not_mem_nil x)
  | cons y ys ih =>
    intro st x d hnd hx hab hentry
    rcases List.mem_cons.mp hx with rfl | hx'
    · rw [List.foldl_cons]
      have hframe := resolveAll_actions_ne env ys (resolveStart env st x) x
        (fun z hz heq => (List.nodup_cons.mp hnd).1 (heq ▸ hz))
      have hown := resolveStart_own env st x d hab hentry
      rw [statusOf] at hown ⊢
      rw [hframe]
      exact hown
    · have hne : ¬ x = y := fun heq =>
        (List.nodup_cons.mp hnd).1 (heq ▸ hx')
      rw [List.foldl_cons]
      exact ih (resolveStart env st y) x d (List.nodup_cons.mp hnd).2 hx' hab
        (by rw [resolveStart_actions_ne env st y x hne]; exact hentry)

theorem runSeq_actions_ne (env : REnv) :
    ∀ (items : List (List Char × ActionData)) (st : RState) (x : List Char),
      st.scheduled = [] →
      (∀ q ∈ items, ¬ x = q.1) →
      (∀ q ∈ items, ¬ x = autoTestId q.1) →
      getKey (runSeq env st items).actions x = getKey st.actions x := by
  intro items
  induction items with
  | nil => intro st x _ _ _; rfl
  | cons p rest ih =>
    intro st x hsch hne hauto
    have h1 : getKey (runSeq env (step env st p) rest).actions x =
        getKey (step env st p).actions x :=
      ih (step env st p) x (step_scheduled env st p)
        (fun q hq => hne q (List.mem_cons_of_mem p hq))
        (fun q hq => hauto q (List.mem_cons_of_mem p hq))
    have h2 : getKey (step env st p).actions x = getKey st.actions x :=
      step_actions_ne env st p x hsch (hne p (List.mem_cons_self p rest))
        (hauto p (List.mem_cons_self p rest))
    rw [runSeq, List.foldl_cons, ← runSeq, h1, h2]

/-- The chain after a whole fresh sequence: drained; the detached list holds
exactly the `start` actions in order; every enqueued action's entry reflects
its own execution (non-`start`: `complete`/`failed`; `start`: still
`running`, merged, unaborted). -/
theorem runSeq_status (env : REnv) :
    ∀ (items : List (List Char × ActionData)) (st : RState),
      st.scheduled = [] →
      (∀ p ∈ items, getKey st.actions p.1 = none) →
      (items.map Prod.fst).Nodup →
      (∀ p ∈ items, ∀ q ∈ items, ¬ p.1 = autoTestId q.1) →
      (runSeq env st items).scheduled = [] ∧
      (runSeq env st items).detached =
        st.detached ++
          (items.filter (fun p => p.2.atype == AType.start)).map Prod.fst ∧
      (∀ p ∈ items, env.abortDuring p.1 = false →
        (¬ p.2.atype = AType.start →
          statusOf (runSeq env st items) p.1 =
            some (match execOutcome env p.1 p.2 with
                  | Except.ok _ => AStatus.complete
                  | Except.error _ => AStatus.failed)) ∧
        (p.2.atype = AType.start →
          getKey (runSeq env st items).actions p.1 =
            some { data := p.2, status := AStatus.running, executed := true,
                   aborted := false, error := none })) := by
  intro items
  induction items with
  | nil =>
    intro st hsch _ _ _
    refine ⟨hsch, by simp [runSeq], ?_⟩
    intro p hp
    exact absurd hp (List.not_mem_nil p)
  | cons hd rest ih =>
    intro st hsch hfresh hnodup hauto
    obtain ⟨id, d⟩ := hd
    have hfhd : getKey st.actions id = none :=
      hfresh (id, d) (List.mem_cons_self _ _)
    have hnodup' : (id :: rest.map Prod.fst).Nodup := hnodup
    have hhead : ¬ id ∈ rest.map Prod.fst := (List.nodup_cons.mp hnodup').1
    have hsch1 : (step env st (id, d)).scheduled = [] := step_scheduled env st _
    have hfresh1 : ∀ p ∈ rest, getKey (step env st (id, d)).actions p.1 = none := by
      intro p hp
      have hne : ¬ p.1 = id := by
        intro heq
        exact hhead (heq ▸ (List.mem_map.mpr ⟨p, hp, rfl⟩))
      have hna : ¬ p.1 = autoTestId id :=
        hauto p (List.mem_cons_of_mem _ hp) (id, d) (List.mem_cons_self _ _)
      rw [step_actions_ne env st (id, d) p.1 hsch hne hna]
      exact hfresh p (List.mem_cons_of_mem _ hp)
    have hnodup1 : (rest.map Prod.fst).Nodup :=
      (List.nodup_cons.mp hnodup').2
    have hauto1 : ∀ p ∈ rest, ∀ q ∈ rest, ¬ p.1 = autoTestId q.1 :=
      fun p hp q hq =>
        hauto p (List.mem_cons_of_mem _ hp) q (List.mem_cons_of_mem _ hq)
    obtain ⟨ihsch, ihdet, ihstat⟩ :=
      ih (step env st (id, d)) hsch1 hfresh1 hnodup1 hauto1
    have hrw : runSeq env st ((id, d) :: rest) =
        runSeq env (step env st (id, d)) rest := by
      rw [runSeq, List.foldl_cons, ← runSeq]
    refine ⟨by rw [hrw]; exact ihsch, ?_, ?_⟩
    · rw [hrw, ihdet]
      have hdet1 := step_fresh_detached env st id d hfhd hsch
      by_cases hty : d.atype = AType.start
      · simp [hdet1, List.filter_cons, hty]
      · have hbeq : (d.atype == AType.start) = false := by
          simpa using hty
        simp [hdet1, List.filter_cons, hty, hbeq]
    · intro p hp hab
      rcases List.mem_cons.mp hp with rfl | hp'
      · -- the head: settled by its own step, framed through the rest
        have hstepf := step_fresh env st id d hfhd hsch hab
        have hframe : getKey (runSeq env (step env st (id, d)) rest).actions id =
            getKey (step env st (id, d)).actions id := by
          apply runSeq_actions_ne env rest _ id hsch1
          · intro q hq heq
            exact hhead (heq ▸ (List.mem_map.mpr ⟨q, hq, rfl⟩))
          · intro q hq
            exact hauto (id, d) (List.mem_cons_self _ _) q
              (List.mem_cons_of_mem _ hq)
        constructor
        · intro hns
          have hown := (hstepf.1 hns).1
          rw [hrw, statusOf] at *
          rw [hframe]
          simpa [statusOf] using hown
        · intro hty
          have hown := (hstepf.2 hty).2.2
          rw [hrw]
          rw [hframe]
          exact hown
      · exact ihstat p hp' hab

end ActionRunner

/-- After all detached promises settle, every freshly enqueued action's
status reflects exactly its own execution outcome: `complete` on success,
`failed` on a throw (independently of every other action's outcome). -/
theorem runToQuiescence_status (env : REnv)
    (items : List (List Char × ActionData))
    (hnodup : (items.map Prod.fst).Nodup)
    (hauto : ∀ p ∈ items, ∀ q ∈ items, ¬ p.1 = ActionRunner.autoTestId q.1) :
    ∀ p ∈ items, env.abortDuring p.1 = false →
      ActionRunner.statusOf (ActionRunner.runToQuiescence env items) p.1 =
        some (match ActionRunner.execOutcome env p.1 p.2 with
              | Except.ok _ => AStatus.complete
              | Except.error _ => AStatus.failed) := by
  obtain ⟨hsch, hdet, hstat⟩ :=
    ActionRunner.runSeq_status env items ActionRunner.initState rfl
      (fun p _ => rfl) hnodup hauto
  intro p hp hab
  have hdet' : (ActionRunner.runSeq env ActionRunner.initState items).detached =
      (items.filter (fun q => q.2.atype == AType.start)).map Prod.fst := by
    simpa [ActionRunner.initState] using hdet
  have hdnodup :
      (ActionRunner.runSeq env ActionRunner.initState items).detached.Nodup := by
    rw [hdet']
    exact hnodup.sublist ((List.filter_sublist _).map Prod.fst)
  by_cases hty : p.2.atype = AType.start
  · have hentry := (hstat p hp hab).2 hty
    have hmem : p.1 ∈
        (ActionRunner.runSeq env ActionRunner.initState items).detached := by
      rw [hdet']
      exact List.mem_map.mpr
        ⟨p, List.mem_filter.mpr ⟨hp, by simp [hty]⟩, rfl⟩
    have hres := ActionRunner.resolveAll_status env
      (ActionRunner.runSeq env ActionRunner.initState items).detached
      (ActionRunner.runSeq env ActionRunner.initState items) p.1 p.2
      hdnodup hmem hab hentry
    rw [ActionRunner.runToQuiescence, ActionRunner.resolveDetachedAll]
    rw [hres]
    simp [ActionRunner.execOutcome, hty]
  · have hstatus := (hstat p hp hab).1 hty
    have hnotin : ∀ y ∈
        (ActionRunner.runSeq env ActionRunner.initState items).detached,
        ¬ p.1 = y := by
      intro y hy heq
      rw [hdet'] at hy
      obtain ⟨q, hqf, hq1⟩ := List.mem_map.mp hy
      have hqmem : q ∈ items := (List.mem_filter.mp hqf).1
      have hqty : (q.2.atype == AType.start) = true := (List.mem_filter.mp hqf).2
      have hpq : p = q :=
        List.inj_on_of_nodup_map hnodup hp hqmem (by rw [heq, hq1])
      rw [hpq] at hty
      exact hty (by simpa using hqty)
    have hframe := ActionRunner.resolveAll_actions_ne env
      (ActionRunner.runSeq env ActionRunner.initState items).detached
      (ActionRunner.runSeq env ActionRunner.initState items) p.1 hnotin
    rw [ActionRunner.runToQuiescence, ActionRunner.resolveDetachedAll,
      ActionRunner.statusOf, hframe]
    exact hstatus

/-- C2: in any non-streaming enqueue sequence (fresh ids, none shadowing a
build's auto-test id), an action whose execution throws ends `failed` in
its own right and never prevents a later-enqueued action from executing:
the later action still reaches `complete` whenever its own execution
succeeds (and it is not aborted), because the chain's catch swallows the
earlier failure. -/
theorem c2_failed_action_never_blocks (env : REnv)
    (items : List (List Char × ActionData))
    (hnodup : (items.map Prod.fst).Nodup)
    (hauto : ∀ p ∈ items, ∀ q ∈ items, ¬ p.1 = ActionRunner.autoTestId q.1)
    (i j : Nat) (hi : i < items.length) (hj : j < items.length) (_hij : i < j)
    (hithrow : ∃ e,
      ActionRunner.execOutcome env (items.get ⟨i, hi⟩).1 (items.get ⟨i, hi⟩).2 =
        Except.error e)
    (hiab : env.abortDuring (items.get ⟨i, hi⟩).1 = false)
    (hjok : ActionRunner.execOutcome env (items.get ⟨j, hj⟩).1
      (items.get ⟨j, hj⟩).2 = Except.ok ())
    (hjab : env.abortDuring (items.get ⟨j, hj⟩).1 = false) :
    ActionRunner.statusOf (ActionRunner.runToQuiescence env items)
        (items.get ⟨j, hj⟩).1 = some AStatus.complete ∧
      ActionRunner.statusOf (ActionRunner.runToQuiescence env items)
        (items.get ⟨i, hi⟩).1 = some AStatus.failed := by
  constructor
  · have h := runToQuiescence_status env items hnodup hauto
      (items.get ⟨j, hj⟩) (items.get_mem _ _) hjab
    rw [hjok] at h
    exact h
  · obtain ⟨e, he⟩ := hithrow
    have h := runToQuiescence_status env items hnodup hauto
      (items.get ⟨i, hi⟩) (items.get_mem _ _) hiab
    rw [he] at h
    exact h

/-- C2 (witness): a failing shell action enqueued first still lets the file
action enqueued after it reach `complete`; the failing action itself ends
`failed`. -/
theorem c2_failed_action_never_blocks_witness :
    ActionRunner.statusOf
        (ActionRunner.runToQuiescence RW.envShellFail RW.c2items)
        "two".toList = some AStatus.complete ∧
      ActionRunner.statusOf
        (ActionRunner.runToQuiescence RW.envShellFail RW.c2items)
        "one".toList = some AStatus.failed :=
  c2_failed_action_never_blocks RW.envShellFail RW.c2items
    (by decide) (by decide) 0 1 (by decide) (by decide) (by decide)
    ⟨JsErr.cmdError "Failed To Execute Shell Command".toList "err".toList, rfl⟩
    rfl rfl rfl

/-- C9 (witness): a summary with 1 failure out of 10 has severity `warning`,
obtained from the classification theorem at a concrete summary. -/
theorem c9_severity_witness :
    0 < (10 : Nat) ∧
      TestFeedbackParser.calculateSeverity
        { total := 10, passed := 9, failed := 1, skipped := 0 } = TSev.warning := by
  refine ⟨by decide, ?_⟩
  have h := (c9_severity_classification.2
    { total := 10, passed := 9, failed := 1, skipped := 0 } (by decide)).2.1
  exact h.mpr (by norm_num)

/-- C7: for every input string on which the monitor's TypeScript-error
pattern `(.*?)\((\d+),(\d+)\): error TS(\d+): (.+)` finds a match, a single
call to `ErrorMonitor.monitorOutput` returns exactly one `CompilationError`
of type `typescript`, and its message embeds the matched TS error code:
it is `TS<code>: <message>` built from capture groups 4 and 5. -/
theorem c7_single_typescript_error (output : List Char) (now : Nat) (caps : Caps)
    (h : jsMatch ErrorMonitor.tsRegex output = some caps) :
    ∃ e : CompilationError,
      (ErrorMonitor.monitorOutput output now).filter
          (fun er => er.ctype == CEType.ts) = [e] ∧
      e.ctype = CEType.ts ∧
      e.message = "TS".toList ++ (capGet caps 4).getD [] ++ ": ".toList ++
        (capGet caps 5).getD [] := by
  refine ⟨{ ctype := CEType.ts
            file := dropPfx ((capGet caps 1).getD []) "/home/project".toList
            line := some (digsToNat ((capGet caps 2).getD []))
            column := some (digsToNat ((capGet caps 3).getD []))
            message := "TS".toList ++ (capGet caps 4).getD [] ++ ": ".toList ++
              (capGet caps 5).getD []
            rawError := output
            suggestion := some (ErrorMonitor.generateTypeScriptSuggestion
              ((capGet caps 4).getD []) ((capGet caps 5).getD []))
            timestamp := now }, ?_, rfl, rfl⟩
  unfold ErrorMonitor.monitorOutput
  cases hv : jsMatch ErrorMonitor.viteRegex output <;>
    by_cases himp : (containsSub output "Cannot find module".toList ||
        containsSub output "Module not found".toList ||
        containsSub output "Failed to resolve import".toList) = true <;>
    simp [hv, himp, h, List.filter_append, List.filter_cons, beq_iff_eq]

/-- C7 (witness): on the concrete line `a(1,2): error TS2304: x` the
monitor reports exactly one typescript error, message `TS2304: x`. -/
theorem c7_single_typescript_error_witness :
    ∃ e : CompilationError,
      (ErrorMonitor.monitorOutput "a(1,2): error TS2304: x".toList 0).filter
          (fun er => er.ctype == CEType.ts) = [e] ∧
      e.ctype = CEType.ts ∧
      e.message = "TS".toList ++
          (capGet [(1, "a".toList), (2, "1".toList), (3, "2".toList),
            (4, "2304".toList), (5, "x".toList)] 4).getD [] ++ ": ".toList ++
          (capGet [(1, "a".toList), (2, "1".toList), (3, "2".toList),
            (4, "2304".toList), (5, "x".toList)] 5).getD [] :=
  c7_single_typescript_error ("a(1,2): error TS2304: x".toList) 0 _ (by decide)

end PWB

namespace PWB

theorem natToDigsAux_irrel : ∀ f1 f2 n : Nat, n < f1 → n < f2 →
    natToDigsAux f1 n = natToDigsAux f2 n := by
  intro f1
  induction f1 with
  | zero => intro f2 n h1 h2; omega
  | succ g1 ih =>
    intro f2 n h1 h2
    obtain ⟨g2, rfl⟩ : ∃ g2, f2 = g2 + 1 := ⟨f2 - 1, by omega⟩
    rw [natToDigsAux, natToDigsAux]
    by_cases hn : n < 10
    · rw [if_pos hn, if_pos hn]
    · rw [if_neg hn, if_neg hn, ih g2 (n / 10) (by omega) (by omega)]

theorem natToDigs_eq (n : Nat) : natToDigs n =
    if n < 10 then [Char.ofNat (48 + n)]
    else natToDigs (n / 10) ++ [Char.ofNat (48 + n % 10)] := by
  rw [natToDigs, natToDigsAux]
  by_cases hn : n < 10
  · rw [if_pos hn, if_pos hn]
  · rw [if_neg hn, if_neg hn, natToDigs,
      natToDigsAux_irrel n (n / 10 + 1) (n / 10) (by omega) (by omega)]

theorem natToDigs_ne_nil (n : Nat) : natToDigs n ≠ [] := by
  rw [natToDigs_eq]
  split
  · simp
  · simp

theorem isDig_ofNat_add (d : Nat) (h : d < 10) :
    isDig (Char.ofNat (48 + d)) = true := by
  interval_cases d <;> decide

theorem toNat_ofNat_digit (d : Nat) (h : d < 10) :
    (Char.ofNat (48 + d)).toNat = 48 + d := by
  interval_cases d <;> decide

theorem mem_natToDigs_isDig (n : Nat) :
    ∀ c ∈ natToDigs n, isDig c = true := by
  induction n using Nat.strong_induction_on with
  | _ n ih =>
    intro c hc
    rw [natToDigs_eq] at hc
    by_cases h : n < 10
    · rw [if_pos h] at hc
      simp at hc
      subst hc
      exact isDig_ofNat_add n h
    · rw [if_neg h] at hc
      rcases List.mem_append.mp hc with h1 | h1
      · exact ih (n / 10) (by omega) c h1
      · simp at h1
        subst h1
        exact isDig_ofNat_add _ (Nat.mod_lt _ (by omega))

theorem digsToNat_append_digit (a : List Char) (c : Char) :
    digsToNat (a ++ [c]) = 10 * digsToNat a + (c.toNat - 48) := by
  simp [digsToNat, List.foldl_append]
  omega

theorem digsToNat_natToDigs (n : Nat) : digsToNat (natToDigs n) = n := by
  induction n using Nat.strong_induction_on with
  | _ n ih =>
    rw [natToDigs_eq]
    by_cases h : n < 10
    · rw [if_pos h]
      simp [digsToNat, toNat_ofNat_digit n h]
    · rw [if_neg h, digsToNat_append_digit, ih (n / 10) (by omega),
        toNat_ofNat_digit _ (Nat.mod_lt _ (by omega))]
      omega

theorem isDig_toNat (c : Char) (h : isDig c = true) :
    48 ≤ c.toNat ∧ c.toNat ≤ 57 := by
  rw [isDig, Bool.and_eq_true, decide_eq_true_eq, decide_eq_true_eq] at h
  obtain ⟨h1, h2⟩ := h
  exact ⟨h1, h2⟩

theorem natToDigs_head (n : Nat) :
    ∃ d ds, natToDigs n = d :: ds ∧ isDig d = true := by
  induction n using Nat.strong_induction_on with
  | _ n ih =>
    by_cases h : n < 10
    · exact ⟨_, _, by rw [natToDigs_eq, if_pos h], isDig_ofNat_add n h⟩
    · obtain ⟨d, ds, hds, hd⟩ := ih (n / 10) (by omega)
      exact ⟨d, ds ++ [Char.ofNat (48 + n % 10)],
        by rw [natToDigs_eq, if_neg h, hds]; simp, hd⟩

end PWB

namespace PWB

theorem takeWhile_append_all (p : Char → Bool) (a b : List Char)
    (ha : ∀ c ∈ a, p c = true) (hb : ∀ c, b.head? = some c → p c = false) :
    (a ++ b).takeWhile p = a ∧ (a ++ b).dropWhile p = b := by
  induction a with
  | nil =>
    cases b with
    | nil => simp
    | cons c tl => simp [List.takeWhile_cons, List.dropWhile_cons, hb c rfl]
  | cons c tl ih =>
    have hc : p c = true := ha c (by simp)
    have := ih (fun d hd => ha d (by simp [hd]))
    simp [List.takeWhile_cons, List.dropWhile_cons, hc, this.1, this.2]

theorem isWsp_not_isDig (c : Char) (h : isWsp c = true) : isDig c = false := by
  rw [isWsp] at h
  rcases Bool.or_eq_true _ _ |>.mp h with h1 | h1
  · rcases Bool.or_eq_true _ _ |>.mp h1 with h2 | h2
    · rcases Bool.or_eq_true _ _ |>.mp h2 with h3 | h3 <;>
        (rw [beq_iff_eq] at h3; subst h3; decide)
    · rw [beq_iff_eq] at h2; subst h2; decide
  · rw [beq_iff_eq] at h1; subst h1; decide

theorem isDig_not_isWsp (c : Char) (h : isDig c = true) : isWsp c = false := by
  cases hw : isWsp c with
  | false => rfl
  | true => rw [isWsp_not_isDig c hw] at h; exact absurd h (by simp)

theorem skipWs_cons_ws (c : Char) (s : List Char) (h : isWsp c = true) :
    skipWs (c :: s) = skipWs s := by
  simp [skipWs, List.dropWhile_cons, h]

theorem skipWs_cons_not (c : Char) (s : List Char) (h : isWsp c = false) :
    skipWs (c :: s) = c :: s := by
  simp [skipWs, List.dropWhile_cons, h]

theorem skipWs_append_spaces (n : Nat) (s : List Char) :
    skipWs (spaces n ++ s) = skipWs s := by
  induction n with
  | zero => simp [spaces]
  | succ m ih =>
    rw [spaces, List.replicate_succ, List.cons_append,
      skipWs_cons_ws _ _ (by decide)]
    exact ih

theorem skipWs_idem (s : List Char) : skipWs (skipWs s) = skipWs s := by
  induction s with
  | nil => simp [skipWs]
  | cons c tl ih =>
    cases h : isWsp c with
    | true => rw [skipWs_cons_ws c tl h]; exact ih
    | false => rw [skipWs_cons_not c tl h, skipWs_cons_not c tl h]

theorem head_skipWs_not_ws (s : List Char) (c : Char)
    (h : (skipWs s).head? = some c) : isWsp c = false := by
  induction s with
  | nil => simp [skipWs] at h
  | cons d tl ih =>
    cases hd : isWsp d with
    | true => rw [skipWs_cons_ws d tl hd] at h; exact ih h
    | false => rw [skipWs_cons_not d tl hd] at h; simp at h; rw [← h]; exact hd

theorem head_not_dig_of_skipWs (u r : List Char) (c' : Char)
    (h : skipWs u = c' :: r) (hc' : isDig c' = false) :
    ∀ c, u.head? = some c → isDig c = false := by
  intro c hc
  cases u with
  | nil => simp at hc
  | cons d tl =>
    simp at hc
    subst hc
    cases hd : isWsp d with
    | true => exact isWsp_not_isDig d hd
    | false =>
      rw [skipWs_cons_not d tl hd] at h
      injection h with h1 _
      rw [h1]; exact hc'

theorem parseVal_skipWs (f : Nat) (s : List Char) :
    parseVal f (skipWs s) = parseVal f s := by
  cases f with
  | zero => rfl
  | succ f' => simp only [parseVal, skipWs_idem]

theorem parseArrItems_skipWs (f : Nat) (s : List Char) :
    parseArrItems f (skipWs s) = parseArrItems f s := by
  cases f with
  | zero => rfl
  | succ f' => simp only [parseArrItems, parseVal_skipWs]

theorem parseObjItems_skipWs (f : Nat) (s : List Char) :
    parseObjItems f (skipWs s) = parseObjItems f s := by
  cases f with
  | zero => rfl
  | succ f' => simp only [parseObjItems, skipWs_idem]

theorem parseHex_hexDig (n : Nat) (h : n < 16) :
    parseHex (hexDig n) = some n := by
  interval_cases n <;> decide

end PWB

namespace PWB

theorem parseStrAux_escStr (s rest : List Char) :
    parseStrAux (escStr s ++ '"' :: rest) = some (s, rest) := by
  induction s with
  | nil =>
    simp only [escStr, List.foldr_nil, List.nil_append]
    rw [parseStrAux.eq_def]
    simp
  | cons c tl ih =>
    have hesc : escStr (c :: tl) = escChar c ++ escStr tl := by
      simp [escStr]
    rw [hesc, List.append_assoc]
    rw [escChar]
    by_cases h1 : c = '"'
    · subst h1; rw [parseStrAux.eq_def]; simp [escDecode, ih]
    · rw [if_neg h1]
      by_cases h2 : c = '\\'
      · subst h2; rw [parseStrAux.eq_def]; simp [escDecode, ih]
      · rw [if_neg h2]
        by_cases h3 : c = '\n'
        · subst h3; rw [parseStrAux.eq_def]; simp [escDecode, ih]
        · rw [if_neg h3]
          by_cases h4 : c = '\r'
          · subst h4; rw [parseStrAux.eq_def]; simp [escDecode, ih]
          · rw [if_neg h4]
            by_cases h5 : c = '\t'
            · subst h5; rw [parseStrAux.eq_def]; simp [escDecode, ih]
            · rw [if_neg h5]
              by_cases h6 : c = Char.ofNat 8
              · subst h6; rw [parseStrAux.eq_def]; simp [escDecode, ih]
              · rw [if_neg h6]
                by_cases h7 : c = Char.ofNat 12
                · subst h7; rw [parseStrAux.eq_def]; simp [escDecode, ih]
                · rw [if_neg h7]
                  by_cases h8 : c.toNat < 32
                  · rw [if_pos h8]
                    have e1 : parseHex (hexDig (c.toNat / 16)) = some (c.toNat / 16) :=
                      parseHex_hexDig _ (by omega)
                    have e2 : parseHex (hexDig (c.toNat % 16)) = some (c.toNat % 16) :=
                      parseHex_hexDig _ (by omega)
                    have e3 : c.toNat / 16 * 16 + c.toNat % 16 = c.toNat := by
                      omega
                    have e0 : parseHex '0' = some 0 := by decide
                    rw [parseStrAux.eq_def]
                    simp [e0, e1, e2, e3, ih, Char.ofNat_toNat]
                  · rw [if_neg h8]
                    rw [parseStrAux.eq_def]
                    simp [h1, h2, h8, ih]

end PWB

namespace PWB

theorem isDig_ne (c d : Char) (h : isDig c = true)
    (hd : d.toNat < 48 ∨ 57 < d.toNat) : ¬ c = d := by
  intro he
  obtain ⟨h1, h2⟩ := isDig_toNat c h
  subst he
  omega

theorem isPrefixOf_cons_ne (d : Char) (q : List Char) (c : Char) (X : List Char)
    (h : ¬ d = c) : (d :: q).isPrefixOf (c :: X) = false := by
  simp [List.isPrefixOf, h]

theorem parseNum_digits (m : Nat) (rest : List Char)
    (hr : ∀ c, rest.head? = some c → isDig c = false) :
    parseNum (natToDigs m ++ rest) = some ((m : Int), rest) := by
  obtain ⟨d, ds, hds, hd⟩ := natToDigs_head m
  have hall : ∀ c ∈ d :: ds, isDig c = true := by
    rw [← hds]; exact mem_natToDigs_isDig m
  have htk := takeWhile_append_all isDig (d :: ds) rest hall hr
  rw [hds, List.cons_append, parseNum]
  rw [if_neg (isDig_ne d '-' hd (by decide))]
  rw [if_pos hd]
  rw [← List.cons_append, htk.1, htk.2, ← hds, digsToNat_natToDigs]

theorem parseNum_intToDigs (n : Int) (rest : List Char)
    (hr : ∀ c, rest.head? = some c → isDig c = false) :
    parseNum (intToDigs n ++ rest) = some (n, rest) := by
  rw [intToDigs]
  by_cases hn : n < 0
  · rw [if_pos hn]
    obtain ⟨d, ds, hds, hd⟩ := natToDigs_head (-n).toNat
    have hall : ∀ c ∈ d :: ds, isDig c = true := by
      rw [← hds]; exact mem_natToDigs_isDig _
    have htk := takeWhile_append_all isDig (d :: ds) rest hall hr
    rw [List.cons_append] at htk
    rw [List.cons_append, parseNum, if_pos rfl, hds, List.cons_append]
    rw [htk.1, htk.2]
    rw [if_neg (by simp)]
    rw [← hds, digsToNat_natToDigs]
    have h2 : ((-n).toNat : Int) = -n := Int.toNat_of_nonneg (by omega)
    rw [h2]
    simp
  · rw [if_neg hn]
    rw [parseNum_digits n.toNat rest hr]
    have : (n.toNat : Int) = n := Int.toNat_of_nonneg (by omega)
    rw [this]

end PWB

namespace PWB

theorem render_jnull (ind : Nat) : render ind Json.jnull = "null".toList := by
  rw [render]

theorem render_jtrue (ind : Nat) : render ind (Json.jbool true) = "true".toList := by
  rw [render]

theorem render_jfalse (ind : Nat) : render ind (Json.jbool false) = "false".toList := by
  rw [render]

theorem render_jnum (ind : Nat) (n : Int) : render ind (Json.jnum n) = intToDigs n := by
  rw [render]

theorem render_jstr (ind : Nat) (s : List Char) :
    render ind (Json.jstr s) = '"' :: escStr s ++ ['"'] := by
  rw [render]

theorem render_anil (ind : Nat) : render ind (Json.jarr JArr.anil) = "[]".toList := by
  rw [render]

theorem render_acons (ind : Nat) (h : Json) (t : JArr) :
    render ind (Json.jarr (JArr.acons h t)) =
      '[' :: '\n' :: renderArr (ind + 2) (JArr.acons h t) ++
        '\n' :: spaces ind ++ [']'] := by
  rw [render]

theorem render_onil (ind : Nat) : render ind (Json.jobj JObj.onil) = [lbrace, rbrace] := by
  rw [render]

theorem render_ocons (ind : Nat) (k : List Char) (v : Json) (t : JObj) :
    render ind (Json.jobj (JObj.ocons k v t)) =
      lbrace :: '\n' :: renderObj (ind + 2) (JObj.ocons k v t) ++
        '\n' :: spaces ind ++ [rbrace] := by
  rw [render]

theorem renderArr_one (ind : Nat) (h : Json) :
    renderArr ind (JArr.acons h JArr.anil) = spaces ind ++ render ind h := by
  rw [renderArr]

theorem renderArr_more (ind : Nat) (h h2 : Json) (t2 : JArr) :
    renderArr ind (JArr.acons h (JArr.acons h2 t2)) =
      spaces ind ++ render ind h ++
        ',' :: '\n' :: renderArr ind (JArr.acons h2 t2) := by
  rw [renderArr]

theorem renderObj_one (ind : Nat) (k : List Char) (v : Json) :
    renderObj ind (JObj.ocons k v JObj.onil) =
      spaces ind ++ '"' :: escStr k ++ '"' :: ':' :: ' ' :: render ind v := by
  rw [renderObj]

theorem renderObj_more (ind : Nat) (k : List Char) (v : Json) (k2 : List Char)
    (v2 : Json) (t2 : JObj) :
    renderObj ind (JObj.ocons k v (JObj.ocons k2 v2 t2)) =
      spaces ind ++ '"' :: escStr k ++ '"' :: ':' :: ' ' :: render ind v ++
        ',' :: '\n' :: renderObj ind (JObj.ocons k2 v2 t2) := by
  rw [renderObj]

theorem render_head_ok (ind : Nat) (v : Json) :
    ∃ c cs, render ind v = c :: cs ∧ isWsp c = false ∧ ¬ c = ']' := by
  cases v with
  | jnull => exact ⟨'n', _, render_jnull ind, by decide, by decide⟩
  | jbool b =>
    cases b with
    | true => exact ⟨'t', _, render_jtrue ind, by decide, by decide⟩
    | false => exact ⟨'f', _, render_jfalse ind, by decide, by decide⟩
  | jnum n =>
    rw [render_jnum, intToDigs]
    by_cases hn : n < 0
    · exact ⟨'-', _, by rw [if_pos hn], by decide, by decide⟩
    · obtain ⟨d, ds, hds, hd⟩ := natToDigs_head n.toNat
      refine ⟨d, ds, by rw [if_neg hn, hds], isDig_not_isWsp d hd, ?_⟩
      exact isDig_ne d ']' hd (by decide)
  | jstr s => exact ⟨'"', _, render_jstr ind s, by decide, by decide⟩
  | jarr xs =>
    cases xs with
    | anil => exact ⟨'[', _, render_anil ind, by decide, by decide⟩
    | acons h t => exact ⟨'[', _, render_acons ind h t, by decide, by decide⟩
  | jobj fs =>
    cases fs with
    | onil => exact ⟨lbrace, _, render_onil ind, by decide, by decide⟩
    | ocons k v t => exact ⟨lbrace, _, render_ocons ind k v t, by decide, by decide⟩

theorem render_len_pos (ind : Nat) (v : Json) : 1 ≤ (render ind v).length := by
  obtain ⟨c, cs, hc, _, _⟩ := render_head_ok ind v
  rw [hc]
  simp

theorem renderArr_decomp (ind : Nat) (h : Json) (t : JArr) :
    ∃ w, renderArr ind (JArr.acons h t) = spaces ind ++ render ind h ++ w := by
  cases t with
  | anil => exact ⟨[], by rw [renderArr_one]; simp⟩
  | acons h2 t2 => exact ⟨_, renderArr_more ind h h2 t2⟩

theorem renderObj_decomp (ind : Nat) (k : List Char) (v : Json) (t : JObj) :
    ∃ w, renderObj ind (JObj.ocons k v t) =
      spaces ind ++ '"' :: (escStr k ++ '"' :: ':' :: ' ' :: (render ind v ++ w)) := by
  cases t with
  | onil =>
    refine ⟨[], ?_⟩
    rw [renderObj_one]
    simp
  | ocons k2 v2 t2 =>
    refine ⟨',' :: '\n' :: renderObj ind (JObj.ocons k2 v2 t2), ?_⟩
    rw [renderObj_more]
    simp

end PWB

namespace PWB

theorem pv_null (f : Nat) (rest : List Char) :
    parseVal (f + 1) ('n' :: 'u' :: 'l' :: 'l' :: rest) = some (Json.jnull, rest) := by
  rw [parseVal.eq_def]
  simp [skipWs, isWsp, List.isPrefixOf]

theorem pv_true (f : Nat) (rest : List Char) :
    parseVal (f + 1) ('t' :: 'r' :: 'u' :: 'e' :: rest) = some (Json.jbool true, rest) := by
  rw [parseVal.eq_def]
  simp [skipWs, isWsp, List.isPrefixOf]

theorem pv_false (f : Nat) (rest : List Char) :
    parseVal (f + 1) ('f' :: 'a' :: 'l' :: 's' :: 'e' :: rest) =
      some (Json.jbool false, rest) := by
  rw [parseVal.eq_def]
  simp [skipWs, isWsp, List.isPrefixOf]

theorem pv_str (f : Nat) (tl str rest' : List Char)
    (h : parseStrAux tl = some (str, rest')) :
    parseVal (f + 1) ('"' :: tl) = some (Json.jstr str, rest') := by
  rw [parseVal.eq_def]
  simp [skipWs, isWsp, List.isPrefixOf, h]

theorem pv_num (f : Nat) (c : Char) (tl : List Char) (n : Int) (rest' : List Char)
    (hc : isDig c = true ∨ c = '-')
    (hp : parseNum (c :: tl) = some (n, rest')) :
    parseVal (f + 1) (c :: tl) = some (Json.jnum n, rest') := by
  have hnotws : isWsp c = false := by
    rcases hc with h | h
    · exact isDig_not_isWsp c h
    · subst h; decide
  have hne : ∀ d : Char,
      (d.toNat < 45 ∨ (45 < d.toNat ∧ d.toNat < 48) ∨ 57 < d.toNat) → ¬ c = d := by
    rcases hc with h | h
    · intro d hd
      refine isDig_ne c d h ?_
      omega
    · subst h
      intro d hd he
      have h45 : ('-' : Char).toNat = 45 := rfl
      rw [← he] at hd
      omega
  have e1 : ¬ 'n' = c := fun hh => hne 'n' (by decide) hh.symm
  have e2 : ¬ 't' = c := fun hh => hne 't' (by decide) hh.symm
  have e3 : ¬ 'f' = c := fun hh => hne 'f' (by decide) hh.symm
  have hcond : (c = '-' || isDig c) = true := by
    rcases hc with h | h
    · simp [h]
    · simp [h]
  rw [parseVal.eq_def]
  simp [skipWs_cons_not c tl hnotws, e1, e2, e3,
    hne '"' (by decide), hne '[' (by decide), hne lbrace (by decide),
    hcond, hp]

theorem pv_arr_nil (f : Nat) (rest : List Char) :
    parseVal (f + 1) ('[' :: ']' :: rest) = some (Json.jarr JArr.anil, rest) := by
  rw [parseVal.eq_def]
  simp [skipWs, isWsp, List.isPrefixOf]

theorem pv_arr (f : Nat) (tl : List Char) (c2 : Char) (rest2 : List Char)
    (xs : JArr) (rest' : List Char)
    (hs : skipWs tl = c2 :: rest2) (hc2 : ¬ c2 = ']')
    (hp : parseArrItems f (skipWs tl) = some (xs, rest')) :
    parseVal (f + 1) ('[' :: tl) = some (Json.jarr xs, rest') := by
  rw [parseVal.eq_def]
  rw [hs] at hp
  simp [skipWs_cons_not '[' tl (by decide), List.isPrefixOf, hs, hc2, hp]

theorem pv_obj_nil (f : Nat) (rest : List Char) :
    parseVal (f + 1) (lbrace :: rbrace :: rest) = some (Json.jobj JObj.onil, rest) := by
  rw [parseVal.eq_def]
  simp [skipWs, isWsp, List.isPrefixOf, lbrace, rbrace]

theorem pv_obj (f : Nat) (tl : List Char) (c2 : Char) (rest2 : List Char)
    (fs : JObj) (rest' : List Char)
    (hs : skipWs tl = c2 :: rest2) (hc2 : ¬ c2 = rbrace)
    (hp : parseObjItems f (skipWs tl) = some (fs, rest')) :
    parseVal (f + 1) (lbrace :: tl) = some (Json.jobj fs, rest') := by
  rw [parseVal.eq_def]
  rw [hs] at hp
  simp [skipWs_cons_not, isWsp, List.isPrefixOf, hs, hc2, hp, lbrace]

theorem pa_last (f : Nat) (s : List Char) (v : Json) (r1 r2 : List Char)
    (h1 : parseVal f s = some (v, r1)) (h2 : skipWs r1 = ']' :: r2) :
    parseArrItems (f + 1) s = some (JArr.acons v JArr.anil, r2) := by
  rw [parseArrItems.eq_def]
  simp [h1, h2]

theorem pa_cons (f : Nat) (s : List Char) (v : Json) (r1 r2 : List Char)
    (xs : JArr) (r3 : List Char)
    (h1 : parseVal f s = some (v, r1)) (h2 : skipWs r1 = ',' :: r2)
    (h3 : parseArrItems f r2 = some (xs, r3)) :
    parseArrItems (f + 1) s = some (JArr.acons v xs, r3) := by
  rw [parseArrItems.eq_def]
  simp [h1, h2, h3]

theorem po_last (f : Nat) (s : List Char) (k : List Char) (v : Json)
    (tl r1 r2 r3 r4 : List Char)
    (h0 : skipWs s = '"' :: tl)
    (h1 : parseStrAux tl = some (k, r1))
    (h2 : skipWs r1 = ':' :: r2)
    (h3 : parseVal f r2 = some (v, r3))
    (h4 : skipWs r3 = rbrace :: r4) :
    parseObjItems (f + 1) s = some (JObj.ocons k v JObj.onil, r4) := by
  rw [parseObjItems.eq_def]
  simp [h0, h1, h2, h3, h4, rbrace]

theorem po_cons (f : Nat) (s : List Char) (k : List Char) (v : Json)
    (tl r1 r2 r3 r4 : List Char) (fs : JObj) (r5 : List Char)
    (h0 : skipWs s = '"' :: tl)
    (h1 : parseStrAux tl = some (k, r1))
    (h2 : skipWs r1 = ':' :: r2)
    (h3 : parseVal f r2 = some (v, r3))
    (h4 : skipWs r3 = ',' :: r4)
    (h5 : parseObjItems f r4 = some (fs, r5)) :
    parseObjItems (f + 1) s = some (JObj.ocons k v fs, r5) := by
  rw [parseObjItems.eq_def]
  simp [h0, h1, h2, h3, h4, h5]

end PWB

namespace PWB

theorem json_sizeOf_pos (v : Json) : 1 ≤ sizeOf v := by
  cases v <;> simp_arith

theorem jarr_sizeOf_pos (t : JArr) : 1 ≤ sizeOf t := by
  cases t <;> simp_arith

theorem jobj_sizeOf_pos (t : JObj) : 1 ≤ sizeOf t := by
  cases t <;> simp_arith

theorem spaces_len (n : Nat) : (spaces n).length = n := by simp [spaces]

theorem rt_bundle (N : Nat) :
    (∀ v : Json, sizeOf v ≤ N → ∀ fuel ind rest,
      (render ind v).length + 2 < fuel →
      (∀ c, rest.head? = some c → isDig c = false) →
      parseVal fuel (render ind v ++ rest) = some (v, rest)) ∧
    (∀ (h : Json) (t : JArr), sizeOf h + sizeOf t ≤ N → ∀ fuel ind u rest,
      (renderArr ind (JArr.acons h t)).length + 4 < fuel →
      skipWs u = ']' :: rest →
      parseArrItems fuel (renderArr ind (JArr.acons h t) ++ u) =
        some (JArr.acons h t, rest)) ∧
    (∀ (k : List Char) (v : Json) (t : JObj), sizeOf v + sizeOf t ≤ N →
      ∀ fuel ind u rest,
      (renderObj ind (JObj.ocons k v t)).length + 4 < fuel →
      skipWs u = rbrace :: rest →
      parseObjItems fuel (renderObj ind (JObj.ocons k v t) ++ u) =
        some (JObj.ocons k v t, rest)) := by
  induction N with
  | zero =>
    refine ⟨fun v hv => ?_, fun h t hv => ?_, fun k v t hv => ?_⟩
    · exact absurd hv (by have := json_sizeOf_pos v; omega)
    · exact absurd hv (by have := json_sizeOf_pos h; have := jarr_sizeOf_pos t; omega)
    · exact absurd hv (by have := json_sizeOf_pos v; have := jobj_sizeOf_pos t; omega)
  | succ n ih =>
    obtain ⟨ihV, ihA, ihO⟩ := ih
    refine ⟨?_, ?_, ?_⟩
    · -- values
      intro v hv fuel ind rest hfuel hrest
      obtain ⟨f, rfl⟩ : ∃ f, fuel = f + 1 := ⟨fuel - 1, by omega⟩
      cases v with
      | jnull =>
        rw [render_jnull]
        have he : "null".toList ++ rest = 'n' :: 'u' :: 'l' :: 'l' :: rest := rfl
        rw [he]
        exact pv_null f rest
      | jbool b =>
        cases b with
        | true =>
          rw [render_jtrue]
          have he : "true".toList ++ rest = 't' :: 'r' :: 'u' :: 'e' :: rest := rfl
          rw [he]
          exact pv_true f rest
        | false =>
          rw [render_jfalse]
          have he : "false".toList ++ rest = 'f' :: 'a' :: 'l' :: 's' :: 'e' :: rest := rfl
          rw [he]
          exact pv_false f rest
      | jnum m =>
        rw [render_jnum]
        have hshape : ∃ c tl2, intToDigs m = c :: tl2 ∧ (isDig c = true ∨ c = '-') := by
          rw [intToDigs]
          by_cases hn : m < 0
          · exact ⟨'-', _, by rw [if_pos hn], Or.inr rfl⟩
          · obtain ⟨d, ds, hds, hd⟩ := natToDigs_head m.toNat
            exact ⟨d, ds, by rw [if_neg hn, hds], Or.inl hd⟩
        obtain ⟨c, tl2, hct, hcd⟩ := hshape
        have hp := parseNum_intToDigs m rest hrest
        rw [hct, List.cons_append] at hp ⊢
        exact pv_num f c (tl2 ++ rest) m rest hcd hp
      | jstr s =>
        rw [render_jstr]
        have he : ('"' :: escStr s ++ ['"']) ++ rest = '"' :: (escStr s ++ '"' :: rest) := by
          simp
        rw [he]
        exact pv_str f _ s rest (parseStrAux_escStr s rest)
      | jarr xs =>
        cases xs with
        | anil =>
          rw [render_anil]
          have he : "[]".toList ++ rest = '[' :: ']' :: rest := rfl
          rw [he]
          exact pv_arr_nil f rest
        | acons h t =>
          rw [render_acons]
          have hsz : sizeOf h + sizeOf t ≤ n := by
            simp_arith at hv
            omega
          have hlen : (render ind (Json.jarr (JArr.acons h t))).length =
              (renderArr (ind + 2) (JArr.acons h t)).length + ind + 4 := by
            rw [render_acons]
            simp [spaces_len]
            omega
          have hA : (renderArr (ind + 2) (JArr.acons h t)).length + 4 < f := by
            rw [hlen] at hfuel
            omega
          have he : ('[' :: '\n' :: renderArr (ind + 2) (JArr.acons h t) ++
                '\n' :: spaces ind ++ [']']) ++ rest =
              '[' :: ('\n' :: (renderArr (ind + 2) (JArr.acons h t) ++
                ('\n' :: (spaces ind ++ (']' :: rest))))) := by
            simp
          rw [he]
          have hu : skipWs ('\n' :: (spaces ind ++ (']' :: rest))) = ']' :: rest := by
            rw [skipWs_cons_ws _ _ (by decide), skipWs_append_spaces,
              skipWs_cons_not _ _ (by decide)]
          have hitems := ihA h t hsz f (ind + 2)
            ('\n' :: (spaces ind ++ (']' :: rest))) rest hA hu
          obtain ⟨w, hw⟩ := renderArr_decomp (ind + 2) h t
          obtain ⟨c, cs, hc, hcw, hcne⟩ := render_head_ok (ind + 2) h
          set u := '\n' :: (spaces ind ++ (']' :: rest)) with hudef
          set tl := '\n' :: (renderArr (ind + 2) (JArr.acons h t) ++ u) with htldef
          have hskip : skipWs tl = c :: (cs ++ (w ++ u)) := by
            rw [htldef, skipWs_cons_ws _ _ (by decide), hw, hc]
            rw [List.append_assoc, List.append_assoc, List.cons_append,
              skipWs_append_spaces, skipWs_cons_not _ _ hcw]
          have hbridge : parseArrItems f (skipWs tl) =
              some (JArr.acons h t, rest) := by
            rw [parseArrItems_skipWs f tl, htldef]
            have h2 : parseArrItems f
                ('\n' :: (renderArr (ind + 2) (JArr.acons h t) ++ u)) =
                parseArrItems f (renderArr (ind + 2) (JArr.acons h t) ++ u) := by
              rw [← parseArrItems_skipWs f
                  ('\n' :: (renderArr (ind + 2) (JArr.acons h t) ++ u)),
                skipWs_cons_ws _ _ (by decide), parseArrItems_skipWs]
            rw [h2]
            exact hitems
          exact pv_arr f tl c (cs ++ (w ++ u)) (JArr.acons h t) rest hskip hcne hbridge
      | jobj fs =>
        cases fs with
        | onil =>
          rw [render_onil]
          have he : [lbrace, rbrace] ++ rest = lbrace :: rbrace :: rest := rfl
          rw [he]
          exact pv_obj_nil f rest
        | ocons k v t =>
          rw [render_ocons]
          have hsz : sizeOf v + sizeOf t ≤ n := by
            simp_arith at hv
            omega
          have hlen : (render ind (Json.jobj (JObj.ocons k v t))).length =
              (renderObj (ind + 2) (JObj.ocons k v t)).length + ind + 4 := by
            rw [render_ocons]
            simp [spaces_len]
            omega
          have hO : (renderObj (ind + 2) (JObj.ocons k v t)).length + 4 < f := by
            rw [hlen] at hfuel
            omega
          have he : (lbrace :: '\n' :: renderObj (ind + 2) (JObj.ocons k v t) ++
                '\n' :: spaces ind ++ [rbrace]) ++ rest =
              lbrace :: ('\n' :: (renderObj (ind + 2) (JObj.ocons k v t) ++
                ('\n' :: (spaces ind ++ (rbrace :: rest))))) := by
            simp
          rw [he]
          have hu : skipWs ('\n' :: (spaces ind ++ (rbrace :: rest))) =
              rbrace :: rest := by
            rw [skipWs_cons_ws _ _ (by decide), skipWs_append_spaces,
              skipWs_cons_not _ _ (by decide)]
          have hitems := ihO k v t hsz f (ind + 2)
            ('\n' :: (spaces ind ++ (rbrace :: rest))) rest hO hu
          obtain ⟨w, hw⟩ := renderObj_decomp (ind + 2) k v t
          set u := '\n' :: (spaces ind ++ (rbrace :: rest)) with hudef
          set tl := '\n' :: (renderObj (ind + 2) (JObj.ocons k v t) ++ u) with htldef
          have hskip : skipWs tl =
              '"' :: ((escStr k ++ '"' :: ':' :: ' ' :: (render (ind + 2) v ++ w)) ++ u) := by
            rw [htldef, skipWs_cons_ws _ _ (by decide), hw]
            rw [List.append_assoc, List.cons_append, skipWs_append_spaces,
              skipWs_cons_not _ _ (by decide)]
          have hbridge : parseObjItems f (skipWs tl) =
              some (JObj.ocons k v t, rest) := by
            rw [parseObjItems_skipWs f tl, htldef]
            have h2 : parseObjItems f
                ('\n' :: (renderObj (ind + 2) (JObj.ocons k v t) ++ u)) =
                parseObjItems f (renderObj (ind + 2) (JObj.ocons k v t) ++ u) := by
              rw [← parseObjItems_skipWs f
                  ('\n' :: (renderObj (ind + 2) (JObj.ocons k v t) ++ u)),
                skipWs_cons_ws _ _ (by decide), parseObjItems_skipWs]
            rw [h2]
            exact hitems
          exact pv_obj f tl '"' _ (JObj.ocons k v t) rest hskip (by decide) hbridge
    · -- array items
      intro h t hsz fuel ind u rest hfuel hu
      obtain ⟨f, rfl⟩ : ∃ f, fuel = f + 1 := ⟨fuel - 1, by omega⟩
      have hud : ∀ c, u.head? = some c → isDig c = false :=
        head_not_dig_of_skipWs u rest ']' hu (by decide)
      cases t with
      | anil =>
        rw [renderArr_one]
        have hszh : sizeOf h ≤ n := by
          have := jarr_sizeOf_pos JArr.anil
          simp_arith at hsz
          omega
        have hlenf : (render ind h).length + 2 < f := by
          have : (renderArr ind (JArr.acons h JArr.anil)).length =
              ind + (render ind h).length := by
            rw [renderArr_one]
            simp [spaces_len]
          omega
        have he : (spaces ind ++ render ind h) ++ u =
            spaces ind ++ (render ind h ++ u) := by
          simp
        rw [he]
        have hval : parseVal f (spaces ind ++ (render ind h ++ u)) = some (h, u) := by
          rw [← parseVal_skipWs f (spaces ind ++ (render ind h ++ u)),
            skipWs_append_spaces, parseVal_skipWs]
          exact ihV h hszh f ind u hlenf hud
        exact pa_last f _ h u rest hval hu
      | acons h2 t2 =>
        rw [renderArr_more]
        have hszh : sizeOf h ≤ n := by
          simp_arith at hsz
          have := jarr_sizeOf_pos t2
          have := json_sizeOf_pos h2
          omega
        have hsz2 : sizeOf h2 + sizeOf t2 ≤ n := by
          simp_arith at hsz
          have := json_sizeOf_pos h
          omega
        have hlen : (renderArr ind (JArr.acons h (JArr.acons h2 t2))).length =
            ind + (render ind h).length + 2 +
              (renderArr ind (JArr.acons h2 t2)).length := by
          rw [renderArr_more]
          simp [spaces_len]
          omega
        have hlenf : (render ind h).length + 2 < f := by
          rw [hlen] at hfuel
          omega
        have hlenA2 : (renderArr ind (JArr.acons h2 t2)).length + 4 < f := by
          rw [hlen] at hfuel
          have := render_len_pos ind h
          omega
        have he : (spaces ind ++ render ind h ++
              ',' :: '\n' :: renderArr ind (JArr.acons h2 t2)) ++ u =
            spaces ind ++ (render ind h ++
              (',' :: ('\n' :: (renderArr ind (JArr.acons h2 t2) ++ u)))) := by
          simp
        rw [he]
        have hval : parseVal f (spaces ind ++ (render ind h ++
            (',' :: ('\n' :: (renderArr ind (JArr.acons h2 t2) ++ u))))) =
            some (h, ',' :: ('\n' :: (renderArr ind (JArr.acons h2 t2) ++ u))) := by
          rw [← parseVal_skipWs f (spaces ind ++ (render ind h ++ _)),
            skipWs_append_spaces, parseVal_skipWs]
          exact ihV h hszh f ind _ hlenf (by intro c hc; simp at hc; subst hc; decide)
        have hskip2 : skipWs (',' :: ('\n' :: (renderArr ind (JArr.acons h2 t2) ++ u))) =
            ',' :: ('\n' :: (renderArr ind (JArr.acons h2 t2) ++ u)) :=
          skipWs_cons_not _ _ (by decide)
        have hrec : parseArrItems f ('\n' :: (renderArr ind (JArr.acons h2 t2) ++ u)) =
            some (JArr.acons h2 t2, rest) := by
          rw [← parseArrItems_skipWs f ('\n' :: (renderArr ind (JArr.acons h2 t2) ++ u)),
            skipWs_cons_ws _ _ (by decide), parseArrItems_skipWs]
          exact ihA h2 t2 hsz2 f ind u rest hlenA2 hu
        exact pa_cons f _ h _ _ (JArr.acons h2 t2) rest hval hskip2 hrec
    · -- object members
      intro k v t hsz fuel ind u rest hfuel hu
      obtain ⟨f, rfl⟩ : ∃ f, fuel = f + 1 := ⟨fuel - 1, by omega⟩
      have hud : ∀ c, u.head? = some c → isDig c = false :=
        head_not_dig_of_skipWs u rest rbrace hu (by decide)
      cases t with
      | onil =>
        rw [renderObj_one]
        have hszv : sizeOf v ≤ n := by
          have := jobj_sizeOf_pos JObj.onil
          simp_arith at hsz
          omega
        have hlenf : (render ind v).length + 2 < f := by
          have : (renderObj ind (JObj.ocons k v JObj.onil)).length =
              ind + (escStr k).length + 4 + (render ind v).length := by
            rw [renderObj_one]
            simp [spaces_len]
            omega
          omega
        have he : (spaces ind ++ '"' :: escStr k ++ '"' :: ':' :: ' ' :: render ind v) ++ u =
            spaces ind ++ ('"' :: (escStr k ++
              ('"' :: ':' :: ' ' :: (render ind v ++ u)))) := by
          simp
        rw [he]
        have hs0 : skipWs (spaces ind ++ ('"' :: (escStr k ++
            ('"' :: ':' :: ' ' :: (render ind v ++ u))))) =
            '"' :: (escStr k ++ ('"' :: ':' :: ' ' :: (render ind v ++ u))) := by
          rw [skipWs_append_spaces, skipWs_cons_not _ _ (by decide)]
        have hkey : parseStrAux (escStr k ++ '"' :: (':' :: ' ' :: (render ind v ++ u))) =
            some (k, ':' :: ' ' :: (render ind v ++ u)) :=
          parseStrAux_escStr k _
        have hcolon : skipWs (':' :: ' ' :: (render ind v ++ u)) =
            ':' :: (' ' :: (render ind v ++ u)) :=
          skipWs_cons_not _ _ (by decide)
        have hval : parseVal f (' ' :: (render ind v ++ u)) = some (v, u) := by
          rw [← parseVal_skipWs f (' ' :: (render ind v ++ u)),
            skipWs_cons_ws _ _ (by decide), parseVal_skipWs]
          exact ihV v hszv f ind u hlenf hud
        exact po_last f _ k v _ _ _ _ rest hs0 hkey hcolon hval hu
      | ocons k2 v2 t2 =>
        rw [renderObj_more]
        have hszv : sizeOf v ≤ n := by
          simp_arith at hsz
          have := jobj_sizeOf_pos t2
          have := json_sizeOf_pos v2
          omega
        have hsz2 : sizeOf v2 + sizeOf t2 ≤ n := by
          simp_arith at hsz
          have := json_sizeOf_pos v
          omega
        have hlen : (renderObj ind (JObj.ocons k v (JObj.ocons k2 v2 t2))).length =
            ind + (escStr k).length + 4 + (render ind v).length + 2 +
              (renderObj ind (JObj.ocons k2 v2 t2)).length := by
          rw [renderObj_more]
          simp [spaces_len]
          omega
        have hlenf : (render ind v).length + 2 < f := by
          rw [hlen] at hfuel
          omega
        have hlenO2 : (renderObj ind (JObj.ocons k2 v2 t2)).length + 4 < f := by
          rw [hlen] at hfuel
          have := render_len_pos ind v
          omega
        have he : (spaces ind ++ '"' :: escStr k ++ '"' :: ':' :: ' ' :: render ind v ++
              ',' :: '\n' :: renderObj ind (JObj.ocons k2 v2 t2)) ++ u =
            spaces ind ++ ('"' :: (escStr k ++ ('"' :: ':' :: ' ' ::
              (render ind v ++
                (',' :: ('\n' :: (renderObj ind (JObj.ocons k2 v2 t2) ++ u))))))) := by
          simp
        rw [he]
        have hs0 : skipWs (spaces ind ++ ('"' :: (escStr k ++ ('"' :: ':' :: ' ' ::
            (render ind v ++ (',' :: ('\n' :: (renderObj ind (JObj.ocons k2 v2 t2) ++ u)))))))) =
            '"' :: (escStr k ++ ('"' :: ':' :: ' ' ::
              (render ind v ++ (',' :: ('\n' :: (renderObj ind (JObj.ocons k2 v2 t2) ++ u)))))) := by
          rw [skipWs_append_spaces, skipWs_cons_not _ _ (by decide)]
        have hkey : parseStrAux (escStr k ++ '"' :: (':' :: ' ' ::
            (render ind v ++ (',' :: ('\n' :: (renderObj ind (JObj.ocons k2 v2 t2) ++ u)))))) =
            some (k, ':' :: ' ' ::
              (render ind v ++ (',' :: ('\n' :: (renderObj ind (JObj.ocons k2 v2 t2) ++ u))))) :=
          parseStrAux_escStr k _
        have hcolon : skipWs (':' :: ' ' ::
            (render ind v ++ (',' :: ('\n' :: (renderObj ind (JObj.ocons k2 v2 t2) ++ u))))) =
            ':' :: (' ' ::
              (render ind v ++ (',' :: ('\n' :: (renderObj ind (JObj.ocons k2 v2 t2) ++ u))))) :=
          skipWs_cons_not _ _ (by decide)
        have hval : parseVal f (' ' ::
            (render ind v ++ (',' :: ('\n' :: (renderObj ind (JObj.ocons k2 v2 t2) ++ u))))) =
            some (v, ',' :: ('\n' :: (renderObj ind (JObj.ocons k2 v2 t2) ++ u))) := by
          rw [← parseVal_skipWs f (' ' :: _), skipWs_cons_ws _ _ (by decide),
            parseVal_skipWs]
          exact ihV v hszv f ind _ hlenf (by intro c hc; simp at hc; subst hc; decide)
        have hcomma : skipWs (',' :: ('\n' :: (renderObj ind (JObj.ocons k2 v2 t2) ++ u))) =
            ',' :: ('\n' :: (renderObj ind (JObj.ocons k2 v2 t2) ++ u)) :=
          skipWs_cons_not _ _ (by decide)
        have hrec : parseObjItems f ('\n' :: (renderObj ind (JObj.ocons k2 v2 t2) ++ u)) =
            some (JObj.ocons k2 v2 t2, rest) := by
          rw [← parseObjItems_skipWs f ('\n' :: (renderObj ind (JObj.ocons k2 v2 t2) ++ u)),
            skipWs_cons_ws _ _ (by decide), parseObjItems_skipWs]
          exact ihO k2 v2 t2 hsz2 f ind u rest hlenO2 hu
        exact po_cons f _ k v _ _ _ _ _ (JObj.ocons k2 v2 t2) rest
          hs0 hkey hcolon hval hcomma hrec

end PWB

namespace PWB

theorem jsonParse_wrapped (j : Json) :
    jsonParse ('\n' :: (render 0 j ++ ['\n'])) = some j := by
  rw [jsonParse]
  have hval : parseVal (2 * ('\n' :: (render 0 j ++ ['\n'])).length + 2)
      ('\n' :: (render 0 j ++ ['\n'])) = some (j, ['\n']) := by
    rw [← parseVal_skipWs _ ('\n' :: (render 0 j ++ ['\n'])),
      skipWs_cons_ws '\n' (render 0 j ++ ['\n']) (by decide), parseVal_skipWs]
    refine (rt_bundle (sizeOf j)).1 j le_rfl _ 0 ['\n'] (by simp; omega) ?_
    intro c hc
    simp at hc
    subst hc
    decide
  simp only [hval]
  rw [show skipWs ['\n'] = [] from by decide]
  simp

theorem idxOfSub_pfx (s pat : List Char) (h : pat.isPrefixOf s = true) :
    idxOfSub s pat = some 0 := by
  cases s with
  | nil =>
    cases pat with
    | nil => rfl
    | cons c tl => simp [List.isPrefixOf] at h
  | cons c tl => rw [idxOfSub, if_pos h]

theorem idxOfSub_cons_shift (c : Char) (s pat : List Char)
    (h : pat.isPrefixOf (c :: s) = false) :
    idxOfSub (c :: s) pat = (idxOfSub s pat).map (· + 1) := by
  rw [idxOfSub, if_neg (by rw [h]; exact Bool.false_ne_true)]

theorem isPrefixOf_append_nl (pat : List Char) (x y : List Char)
    (hnl : '\n' ∉ pat) :
    pat.isPrefixOf (x ++ '\n' :: y) = pat.isPrefixOf x := by
  induction pat generalizing x with
  | nil => simp [List.isPrefixOf]
  | cons p pt ih =>
    have hp : ¬ p = '\n' := fun hh => hnl (by rw [hh]; exact List.mem_cons_self _ _)
    cases x with
    | nil =>
      simp only [List.nil_append]
      rw [isPrefixOf_cons_ne p pt '\n' y (by exact hp)]
      simp [List.isPrefixOf]
    | cons a xs =>
      simp only [List.cons_append]
      simp only [List.isPrefixOf]
      rw [ih xs (fun hh => hnl (List.mem_cons_of_mem p hh))]

theorem infix_of_idxOfSub (s pat : List Char) (i : Nat)
    (h : idxOfSub s pat = some i) : pat <:+: s := by
  induction s generalizing i with
  | nil =>
    rw [idxOfSub] at h
    by_cases hp : pat = []
    · subst hp; exact List.nil_infix
    · rw [if_neg hp] at h; exact absurd h (by simp)
  | cons c tl ih =>
    rw [idxOfSub] at h
    by_cases hp : pat.isPrefixOf (c :: tl) = true
    · exact (List.isPrefixOf_iff_prefix.mp hp).isInfix
    · rw [if_neg (by simpa using hp)] at h
      obtain ⟨j, hj, _⟩ := Option.map_eq_some'.mp h
      obtain ⟨l, m, hm⟩ := ih j hj
      exact ⟨c :: l, m, by rw [← hm]; simp⟩

theorem idxOfSub_split_nl (x y pat : List Char) (hne : pat ≠ [])
    (hnl : '\n' ∉ pat) :
    idxOfSub (x ++ '\n' :: y) pat =
      match idxOfSub x pat with
      | some i => some i
      | none => (idxOfSub y pat).map (x.length + 1 + ·) := by
  induction x with
  | nil =>
    simp only [List.nil_append]
    obtain ⟨p, pt, rfl⟩ : ∃ p pt, pat = p :: pt := by
      cases pat with
      | nil => exact absurd rfl hne
      | cons p pt => exact ⟨p, pt, rfl⟩
    have hp : ¬ p = '\n' := fun hh => hnl (by rw [hh]; exact List.mem_cons_self _ _)
    rw [idxOfSub_cons_shift _ _ _ (isPrefixOf_cons_ne p pt '\n' y hp)]
    have hnil : idxOfSub [] (p :: pt) = none := by
      rw [idxOfSub, if_neg (by simp)]
    rw [hnil]
    cases idxOfSub y (p :: pt) with
    | none => simp
    | some i => simp; omega
  | cons a xs ih =>
    have hshape : (a :: xs) ++ '\n' :: y = a :: (xs ++ '\n' :: y) := rfl
    rw [hshape]
    by_cases hp : pat.isPrefixOf (a :: xs) = true
    · have hp2 : pat.isPrefixOf (a :: (xs ++ '\n' :: y)) = true := by
        rw [← hshape, isPrefixOf_append_nl pat (a :: xs) y hnl]
        exact hp
      rw [idxOfSub_pfx _ _ hp2, idxOfSub_pfx _ _ hp]
    · have hp1 : pat.isPrefixOf (a :: xs) = false := by
        cases hpb : pat.isPrefixOf (a :: xs) with
        | true => exact absurd hpb hp
        | false => rfl
      have hp2 : pat.isPrefixOf (a :: (xs ++ '\n' :: y)) = false := by
        rw [← hshape, isPrefixOf_append_nl pat (a :: xs) y hnl]
        exact hp1
      rw [idxOfSub_cons_shift _ _ _ hp2, idxOfSub_cons_shift _ _ _ hp1, ih]
      cases hxs : idxOfSub xs pat with
      | some i => simp
      | none =>
        cases hy : idxOfSub y pat with
        | none => simp
        | some i => simp; omega

theorem lastIdxOf_append (a b : List Char) (c : Char) :
    lastIdxOf (a ++ b) c =
      match lastIdxOf b c with
      | some i => some (a.length + i)
      | none => lastIdxOf a c := by
  induction a with
  | nil =>
    rw [List.nil_append]
    cases hb : lastIdxOf b c with
    | some i => simp
    | none => rfl
  | cons d tl ih =>
    rw [List.cons_append, lastIdxOf, ih]
    cases hb : lastIdxOf b c with
    | some i =>
      simp
      omega
    | none => rfl

theorem jsSubstring_all (s : List Char) (b : Nat) (hb : b = s.length) :
    jsSubstring s 0 b = s := by
  subst hb
  simp [jsSubstring]

theorem jsSubstring_extract (A B C : List Char) (x y : Nat)
    (hx : x = A.length) (hy : y = A.length + B.length) :
    jsSubstring (A ++ B ++ C) x y = B := by
  subst hx hy
  have h1 : (A ++ B ++ C).take (A.length + B.length) = A ++ B := by
    rw [← List.length_append A B]
    exact List.take_left (A ++ B) C
  simp only [jsSubstring]
  rw [min_eq_left (by simp), min_eq_left (by simp),
    if_pos (by omega)]
  rw [h1, List.drop_left]

end PWB

namespace PWB

namespace TestFeedbackParser

theorem idxOf_gt (Z : List Char) :
    idxOfSub (tagOpen ++ '>' :: Z) ['>'] = some 15 := by
  have he : tagOpen ++ '>' :: Z =
      '<' :: 'b' :: 'o' :: 'l' :: 't' :: 'T' :: 'e' :: 's' :: 't' ::
        'R' :: 'e' :: 's' :: 'u' :: 'l' :: 't' :: '>' :: Z := rfl
  rw [he]
  simp [idxOfSub, List.isPrefixOf]

/-- C8 (amended): for every `TestReport` whose pretty-printed JSON does not itself
contain the closing sentinel tag `</boltTestResult>`, applying
`TestFeedbackParser.formatForMessage` and then
`TestFeedbackParser.parseTestResults` recovers the report exactly: the
parsed JSON value is the report's Json image (deep equality).  Reports
whose serialized text embeds the closing tag are carved out: `indexOf`
finds that embedded occurrence first and `JSON.parse` then fails on the
truncated slice (see the counterexample). -/
theorem c8_round_trip (r : TestReport)
    (hinf : ¬ List.IsInfix tagClose (stringifyReport r)) :
    parseTestResults (formatForMessage r) = some (encodeReport r) := by
  have hlenO : (tagOpen ++ ['>']).length = 16 := by decide
  have hO15 : tagOpen.length = 15 := by decide
  have hlenC : tagClose.length = 17 := by decide
  have hmsg : formatForMessage r =
      (tagOpen ++ ['>']) ++ '\n' :: (stringifyReport r ++ '\n' :: tagClose) := by
    rw [formatForMessage]
    simp
  have hopen : idxOfSub (formatForMessage r) tagOpen = some 0 := by
    apply idxOfSub_pfx
    rw [formatForMessage]
    exact List.isPrefixOf_iff_prefix.mpr (List.prefix_append _ _)
  have hclose : idxOfSub (formatForMessage r) tagClose =
      some ((stringifyReport r).length + 18) := by
    rw [hmsg, idxOfSub_split_nl _ _ _ (by decide) (by decide)]
    have h1 : idxOfSub (tagOpen ++ ['>']) tagClose = none := by decide
    rw [h1]
    rw [idxOfSub_split_nl _ _ _ (by decide) (by decide)]
    have h2 : idxOfSub (stringifyReport r) tagClose = none := by
      cases hx : idxOfSub (stringifyReport r) tagClose with
      | none => rfl
      | some i => exact absurd (infix_of_idxOfSub _ _ i hx) hinf
    rw [h2]
    rw [idxOfSub_pfx tagClose tagClose
      (List.isPrefixOf_iff_prefix.mpr (List.prefix_refl _))]
    simp [hO15]
    omega
  have hxml : jsSubstring (formatForMessage r) 0
      ((stringifyReport r).length + 18 + tagClose.length) = formatForMessage r := by
    apply jsSubstring_all
    rw [hmsg]
    simp [hO15, hlenC]
    omega
  have hgt : idxOfSub (formatForMessage r) ['>'] = some 15 := by
    rw [formatForMessage]
    exact idxOf_gt _
  have hlt : lastIdxOf (formatForMessage r) '<' =
      some ((stringifyReport r).length + 18) := by
    have hm2 : formatForMessage r =
        (tagOpen ++ ['>', '\n']) ++ (stringifyReport r ++ '\n' :: tagClose) := by
      rw [formatForMessage]
      simp
    rw [hm2, lastIdxOf_append, lastIdxOf_append]
    have h3 : lastIdxOf ('\n' :: tagClose) '<' = some 1 := by decide
    rw [h3]
    have h4 : (tagOpen ++ ['>', '\n']).length = 17 := by decide
    simp [h4, hO15]
    omega
  have hcontent : jsSubstring (formatForMessage r) 16
      ((stringifyReport r).length + 18) =
      '\n' :: (stringifyReport r ++ ['\n']) := by
    have hm3 : formatForMessage r =
        (tagOpen ++ ['>']) ++ ('\n' :: (stringifyReport r ++ ['\n'])) ++ tagClose := by
      rw [formatForMessage]
      simp
    rw [hm3]
    apply jsSubstring_extract
    · rw [hlenO]
    · rw [hlenO]
      simp [hO15]
      omega
  rw [parseTestResults]
  rw [hopen, hclose]
  simp only [hxml, hgt, hlt]
  simp only [Option.map_some', Option.getD_some]
  rw [hcontent]
  rw [show stringifyReport r = render 0 (encodeReport r) from rfl]
  exact jsonParse_wrapped (encodeReport r)

end TestFeedbackParser

end PWB

namespace PWB

namespace TestFeedbackParser

set_option maxRecDepth 40000 in
/-- C8 (witness): the round trip at a concrete two-result report with a
mix of present and omitted optional fields. -/
theorem c8_round_trip_witness :
    ¬ List.IsInfix tagClose (stringifyReport C8W.sampleReport) ∧
      parseTestResults (formatForMessage C8W.sampleReport) =
        some (encodeReport C8W.sampleReport) :=
  ⟨by decide, c8_round_trip C8W.sampleReport (by decide)⟩

set_option maxRecDepth 40000 in
/-- C8 (counterexample): a report whose `agentName` contains the closing
sentinel tag does not round-trip — `indexOf` finds the embedded tag first,
the extracted slice is truncated mid-string, `JSON.parse` throws, and
`parseTestResults` returns `null` instead of a report deep-equal to the
original. -/
theorem c8_counterexample :
    parseTestResults (formatForMessage C8W.badReport) = none := by decide

end TestFeedbackParser

end PWB
